import Mathlib

/-!
Shallow embedding of the sav-file parser (Feeder, DataReader, SavParser)
from the PsychSheet repository, together with theorems that settle the
frozen claims about it.

Modelling conventions:
- A JS ArrayBuffer is a `List Nat` of byte values (callers keep them below 256).
- JS numbers that hold 64-bit floats are modelled by `JSNum`: exact
  rationals for finite doubles plus explicit NaN and infinity markers.
  Decoding a double from bytes follows the IEEE 754 bit layout exactly.
- The mutable Feeder object is a structure; a method that throws returns
  the unchanged structure next to the error, because the JS object keeps
  its state when an exception is raised.
- Parser methods are state functions over the feeder cursor; the byte
  buffer itself is never mutated by the source, so it is a plain
  parameter.  `finallyJump` models the promise `finally` clause that
  restores the cursor on success and on failure.
- Unbounded `while` loops are embedded with an explicit fuel parameter;
  running out of fuel yields the distinguished error `fuelMsg` and models
  divergence of the JS loop.  Entry points pick a fuel large enough for
  every terminating run.
- The running trace log (`this.log`) is write-only observability state
  with no influence on results; it is not modelled.
- `TextDecoder` is modelled by a UTF-8 decoder with U+FFFD replacement;
  on malformed input the replacement granularity may differ from WHATWG,
  which no modelled claim depends on.
- `DataView` accessors on a chunk read past-the-end bytes as 0; at every
  call site of the source the chunk has exactly the accessed size, so the
  out-of-range behaviour (a JS RangeError) is never exercised.
-/

/-- Error messages are plain strings, as thrown by the source. -/
abbrev Err := String

/-- The error produced when loop fuel runs out; it models divergence of the
corresponding JS `while` loop (or a later failure on a path the model cuts
short), never a result the source could return. -/
def fuelMsg : Err := "loop fuel exhausted"

/-- Byte access into a chunk, `DataView.getUint8` style. -/
def byteAt (bs : List Nat) (i : Nat) : Nat := (bs.get? i).getD 0

/-- Little-endian unsigned 32-bit read at a byte offset. -/
def leU32 (bs : List Nat) (off : Nat) : Nat :=
  byteAt bs off + 256 * byteAt bs (off + 1) + 65536 * byteAt bs (off + 2) +
    16777216 * byteAt bs (off + 3)

/-- `DataView.getInt32(off, true)`: little-endian signed 32-bit. -/
def getInt32LE (bs : List Nat) (off : Nat) : Int :=
  let u := leU32 bs off
  if u < 2147483648 then (u : Int) else (u : Int) - 4294967296

/-- `DataView.getInt8(off)`: signed byte. -/
def getInt8 (bs : List Nat) (off : Nat) : Int :=
  let b := byteAt bs off
  if b < 128 then (b : Int) else (b : Int) - 256

/-- Little-endian unsigned 64-bit read at a byte offset. -/
def leU64 (bs : List Nat) (off : Nat) : Nat :=
  byteAt bs off + 256 ^ 1 * byteAt bs (off + 1) + 256 ^ 2 * byteAt bs (off + 2) +
    256 ^ 3 * byteAt bs (off + 3) + 256 ^ 4 * byteAt bs (off + 4) +
    256 ^ 5 * byteAt bs (off + 5) + 256 ^ 6 * byteAt bs (off + 6) +
    256 ^ 7 * byteAt bs (off + 7)

/-- Big-endian unsigned 64-bit read at a byte offset. -/
def beU64 (bs : List Nat) (off : Nat) : Nat :=
  256 ^ 7 * byteAt bs off + 256 ^ 6 * byteAt bs (off + 1) + 256 ^ 5 * byteAt bs (off + 2) +
    256 ^ 4 * byteAt bs (off + 3) + 256 ^ 3 * byteAt bs (off + 4) +
    256 ^ 2 * byteAt bs (off + 5) + 256 ^ 1 * byteAt bs (off + 6) + byteAt bs (off + 7)

/-- A JS number holding the result of a 64-bit float read: finite doubles
are carried as exact rationals, NaN and the infinities are explicit. -/
inductive JSNum where
  | num : ℚ → JSNum
  | nan : JSNum
  | inf : Bool → JSNum
deriving DecidableEq, Repr

/-- JS subtraction on `JSNum` (used for `code - bias`). -/
def JSNum.sub : JSNum → JSNum → JSNum
  | .num a, .num b => .num (a - b)
  | .nan, _ => .nan
  | _, .nan => .nan
  | .inf s, .inf t => if s = t then .nan else .inf s
  | .inf s, .num _ => .inf s
  | .num _, .inf t => .inf (!t)

/-- Value of an IEEE 754 binary64 bit pattern. -/
def float64OfBits (bits : Nat) : JSNum :=
  let sign : ℕ := bits / 2 ^ 63
  let expo : ℕ := bits / 2 ^ 52 % 2 ^ 11
  let mant : ℕ := bits % 2 ^ 52
  if expo = 2047 then (if mant = 0 then .inf (sign = 1) else .nan)
  else
    let mag : ℚ :=
      if expo = 0 then (mant : ℚ) * (1 / 2 ^ 1074)
      else ((2 ^ 52 + mant : ℕ) : ℚ) * ((2 ^ expo : ℚ) / 2 ^ 1075)
    .num (if sign = 1 then -mag else mag)

/-- `DataView.getFloat64(off, little)`; when the flag is omitted in the
source, JS defaults it to `false` (big-endian). -/
def getFloat64 (bs : List Nat) (off : Nat) (little : Bool) : JSNum :=
  float64OfBits (if little then leU64 bs off else beU64 bs off)

/-- `ArrayBuffer.slice(a, b)` with JS index normalisation: negative
indices count from the end, everything is clamped to `[0, length]`. -/
def jsSlice (bs : List Nat) (a b : Int) : List Nat :=
  let len : Int := bs.length
  let a' := (if a < 0 then max (len + a) 0 else min a len).toNat
  let b' := (if b < 0 then max (len + b) 0 else min b len).toNat
  (bs.take b').drop a'

/-- The U+FFFD replacement character emitted by `TextDecoder` on
malformed UTF-8. -/
def repl : Char := '�'

/-- UTF-8 decoding to a character list, with U+FFFD replacement on
malformed sequences (the replacement granularity on malformed input may
differ from WHATWG; no modelled claim depends on it).  The fuel only
makes the recursion structural: one byte list element is consumed per
step, so fuel at least the list length never runs out. -/
def utf8CharsF : Nat → List Nat → List Char
  | 0, _ => []
  | _, [] => []
  | fuel + 1, b :: rest =>
    if b < 128 then Char.ofNat b :: utf8CharsF fuel rest
    else if b < 194 then repl :: utf8CharsF fuel rest
    else if b < 224 then
      match rest with
      | c :: rest2 =>
        if 128 ≤ c ∧ c < 192 then
          Char.ofNat ((b - 192) * 64 + (c - 128)) :: utf8CharsF fuel rest2
        else repl :: utf8CharsF fuel (c :: rest2)
      | [] => [repl]
    else if b < 240 then
      match rest with
      | c :: c2 :: rest3 =>
        if (128 ≤ c ∧ c < 192 ∧ (b ≠ 224 ∨ 160 ≤ c) ∧ (b ≠ 237 ∨ c < 160)) ∧
            (128 ≤ c2 ∧ c2 < 192) then
          Char.ofNat ((b - 224) * 4096 + (c - 128) * 64 + (c2 - 128)) :: utf8CharsF fuel rest3
        else repl :: utf8CharsF fuel (c :: c2 :: rest3)
      | _ => [repl]
    else if b < 245 then
      match rest with
      | c :: c2 :: c3 :: rest4 =>
        if (128 ≤ c ∧ c < 192 ∧ (b ≠ 240 ∨ 144 ≤ c) ∧ (b ≠ 244 ∨ c < 144)) ∧
            (128 ≤ c2 ∧ c2 < 192) ∧ (128 ≤ c3 ∧ c3 < 192) then
          Char.ofNat ((b - 240) * 262144 + (c - 128) * 4096 + (c2 - 128) * 64 + (c3 - 128)) ::
            utf8CharsF fuel rest4
        else repl :: utf8CharsF fuel (c :: c2 :: c3 :: rest4)
      | _ => [repl]
    else repl :: utf8CharsF fuel rest

/-- UTF-8 decoding of a whole byte list. -/
def utf8Chars (bs : List Nat) : List Char := utf8CharsF bs.length bs

/-- `TextDecoder.decode` on a byte chunk. -/
def utf8Decode (bs : List Nat) : String := ⟨utf8Chars bs⟩


/-- The whitespace set of JS `String.prototype.trim` (WhiteSpace and
LineTerminator code points). -/
def isJsSpace (c : Char) : Bool :=
  c = ' ' ∨ c = '\t' ∨ c = '\n' ∨ c = '\r' ∨ c = '\x0b' ∨ c = '\x0c' ∨
    c = '\u00a0' ∨ c = '\ufeff' ∨ c = '\u1680' ∨
    (0x2000 ≤ c.toNat ∧ c.toNat ≤ 0x200a) ∨ c = '\u2028' ∨ c = '\u2029' ∨
    c = '\u202f' ∨ c = '\u205f' ∨ c = '\u3000'

/-- `String.prototype.trim`. -/
def jsTrim (s : String) : String :=
  ⟨((s.data.dropWhile (fun c => isJsSpace c)).reverse.dropWhile
      (fun c => isJsSpace c)).reverse⟩

/-- `String.prototype.substring(0, n)` (counted in characters; the
UTF-16 unit count of JS only differs beyond the basic plane, which no
claim exercises). -/
def jsSubstring (s : String) (n : Nat) : String := ⟨s.data.take n⟩

/-- `parseInt(s, 10)`: skip leading whitespace, optional sign, then the
leading run of decimal digits; `none` encodes NaN. -/
def jsParseInt (s : String) : Option Int :=
  let cs := s.toList.dropWhile (fun c => c = ' ' ∨ c = '\t' ∨ c = '\n' ∨ c = '\r')
  let (neg, cs) : Bool × List Char :=
    match cs with
    | '-' :: t => (true, t)
    | '+' :: t => (false, t)
    | t => (false, t)
  let digits := cs.takeWhile Char.isDigit
  if digits = [] then none
  else
    let v : Nat := digits.foldl (fun acc c => acc * 10 + (c.toNat - 48)) 0
    some (if neg then -(v : Int) else (v : Int))

/-! ## Feeder

`class Feeder` wraps an ArrayBuffer and a mutable cursor.  A method that
throws is modelled as returning the error next to the unchanged object. -/

structure Feeder where
  buffer : List Nat
  cursor : Int
deriving DecidableEq, Repr

namespace Feeder

/-- `jump(position)`: bounds-checked absolute seek. -/
def jump (f : Feeder) (position : Int) : Except Err Unit × Feeder :=
  if position < 0 ∨ position > (f.buffer.length : Int) then
    (.error "Jump to out-of-bounds position", f)
  else
    (.ok (), { f with cursor := position })

/-- `next(size)`: return the next `size` bytes and advance the cursor.
The source reads `this.buffer.slice(this.cursor - size, this.cursor)`
after the cursor update. -/
def next (f : Feeder) (size : Int) : Except Err (List Nat) × Feeder :=
  if f.cursor + size > (f.buffer.length : Int) then
    (.error "Unexpected End of File", f)
  else
    let cursor := f.cursor + size
    (.ok (jsSlice f.buffer (cursor - size) cursor), { f with cursor := cursor })

/-- `position()`. -/
def position (f : Feeder) : Int := f.cursor

/-- `done()`. -/
def done (f : Feeder) : Bool := f.cursor = (f.buffer.length : Int)

end Feeder

/-! ## The parser state monad

SavParser methods mutate only the feeder cursor (never the buffer), so a
parser computation is a function of the cursor with the buffer as a plain
parameter.  All primitives are defined through the `Feeder` methods. -/

/-- A parser computation: cursor in, result (or thrown error) and cursor out. -/
def Parse (α : Type) : Type := Int → Except Err α × Int

/-- Sequencing that propagates a thrown error together with the cursor
state it left behind. -/
def Parse.bind (m : Parse α) (k : α → Parse β) : Parse β := fun c =>
  match m c with
  | (.ok a, c') => k a c'
  | (.error e, c') => (.error e, c')

def Parse.pure (a : α) : Parse α := fun c => (.ok a, c)

instance : Monad Parse where
  pure := Parse.pure
  bind := Parse.bind

/-- Throw, JS `throw new Error(e)`. -/
def perror (e : Err) : Parse α := fun c => (.error e, c)

/-- `feeder.jump(p)` inside a parser computation. -/
def jumpM (buf : List Nat) (p : Int) : Parse Unit := fun c =>
  match Feeder.jump ⟨buf, c⟩ p with
  | (r, f) => (r, f.cursor)

/-- `feeder.next(size)` inside a parser computation. -/
def nextM (buf : List Nat) (size : Int) : Parse (List Nat) := fun c =>
  match Feeder.next ⟨buf, c⟩ size with
  | (r, f) => (r, f.cursor)

/-- `feeder.position()` inside a parser computation. -/
def getPos : Parse Int := fun c => (.ok c, c)

/-- `new Array(n)`: a RangeError for a negative length, otherwise the
index list for the `fill(0).map((_, idx) => ...)` idiom of the source. -/
def newArrayP (n : Int) : Parse (List Nat) :=
  if n < 0 then perror "Invalid array length" else Parse.pure (List.range n.toNat)

/-- `promise.finally(() => feeder.jump(position))`: the jump runs on
success and on failure; if the jump itself throws, its error replaces the
result. -/
def finallyJump (buf : List Nat) (pos : Int) (body : Parse α) : Parse α := fun c =>
  let r := (body c).1
  let c' := (body c).2
  match jumpM buf pos c' with
  | (.ok _, c2) => (r, c2)
  | (.error e, c2) => (.error e, c2)

/-! ## Data model (`types.ts` shapes used by the parser) -/

/-- File-level metadata (`Meta`). -/
structure Meta where
  product : String
  layout : Int
  «variables» : Int
  compression : Int
  weightIndex : Int
  cases : Int
  bias : JSNum
  createdDate : String
  createdTime : String
  label : String
deriving DecidableEq, Repr

/-- Missing-value specification of a field (`Header['missing']`);
`none` components model JS `undefined`. -/
structure MissingSpec where
  codes : List JSNum
  range : Option JSNum × Option JSNum
  strings : List String
deriving DecidableEq, Repr

/-- One variable record of the dictionary (`Header`). -/
structure Header where
  start : Int
  code : Int
  name : String
  label : String
  missing : MissingSpec
  trailers : Int
deriving DecidableEq, Repr

/-- One value-label table (`Scale`); the JS `Map`/`Set` keep insertion
order, modelled as lists (the `Set` deduplication keeps first
occurrences). -/
structure Scale where
  map : List (JSNum × String)
  indices : List Int
deriving DecidableEq, Repr

/-- A display-format triple (`Display`). -/
structure Display where
  type : Int
  width : Int
  align : Int
deriving DecidableEq, Repr

/-- Subtype-3 numeric encoding info (`Internal['integer']`); all fields
`undefined` when the record is absent. -/
structure SysInteger where
  major : Option Int
  minor : Option Int
  revision : Option Int
  machine : Option Int
  float : Option Int
  compression : Option Int
  endianness : Option Int
  character : Option Int
deriving DecidableEq, Repr

/-- Subtype-4 float sentinel info (`Internal['float']`). -/
structure SysFloat where
  missing : Option JSNum
  high : Option JSNum
  low : Option JSNum
deriving DecidableEq, Repr

/-- The assembled internal-record aggregate (`Internal`). -/
structure Internal where
  float : SysFloat
  integer : SysInteger
  display : List Display
  documents : List String
  names : List (String × String)
  longs : List (String × Option Int)
  levels : List Scale
  extra : List (List Nat)
  unrecognized : List (Int × List (List Nat))
  finished : Int
deriving DecidableEq, Repr

/-- The full schema (`Schema`). -/
structure Schema where
  meta : Meta
  headers : List Header
  internal : Internal
deriving DecidableEq, Repr

/-- A decoded data cell: `number | string | null`. -/
inductive Cell where
  | num : JSNum → Cell
  | str : String → Cell
  | null : Cell
deriving DecidableEq, Repr

/-- One data row: the ordered name/value pairs fed to `new Map(...)`
(the JS `Map` would collapse duplicate names; no claim concerns that). -/
abbrev Row := List (String × Cell)

/-- Schema plus rows (`Parsed`, built by spreading the schema). -/
structure Parsed where
  meta : Meta
  headers : List Header
  internal : Internal
  rows : List Row
deriving DecidableEq, Repr

/-! ## SavParser: field dictionary -/

/-- `new Set(xs)` keeps the first occurrence of each element, in order. -/
def jsSetList : List Int → List Int
  | [] => []
  | x :: t => x :: (jsSetList t).filter (fun y => y ≠ x)

namespace SavParser

/-- `readFieldLabel`: 4-byte length, rounded up to a multiple of 4 with the
JS remainder operator, then that many bytes of trimmed text. -/
def readFieldLabel (buf : List Nat) : Parse String := do
  let chunk ← nextM buf 4
  let length0 := getInt32LE chunk 0
  let length := if Int.tmod length0 4 ≠ 0 then length0 + (4 - Int.tmod length0 4) else length0
  let text ← nextM buf length
  Parse.pure (jsTrim (utf8Decode text))

/-- `readFieldMissingCodes`: the source calls `view.getFloat64(8 * idx)`
with the little-endian flag omitted, so JS decodes these doubles
big-endian. -/
def readFieldMissingCodes (view : List Nat) (count : Int) : List JSNum :=
  (List.range count.toNat).map (fun idx => getFloat64 view (8 * idx) false)

/-- `readFieldMissingStrings`. -/
def readFieldMissingStrings (chunk : List Nat) (count : Int) : List String :=
  (List.range count.toNat).map (fun idx =>
    utf8Decode (jsSlice chunk (8 * (idx : Int)) (8 * (idx : Int) + 8)))

/-- `readFieldMissingRange`: two little-endian doubles. -/
def readFieldMissingRange (view : List Nat) : JSNum × JSNum :=
  (getFloat64 view 0 true, getFloat64 view 8 true)

/-- `readFieldMissing`: consume `8 * |code|` bytes and build the
missing-value spec by the sign and magnitude of `code`. -/
def readFieldMissing (buf : List Nat) (numeric : Bool) (code : Int) : Parse MissingSpec := do
  let chunk ← nextM buf (8 * (code.natAbs : Int))
  Parse.pure
    { codes :=
        if numeric ∧ code > 0 then readFieldMissingCodes chunk code
        else if numeric ∧ code = -3 then (readFieldMissingCodes chunk 3).drop 2
        else []
    , range :=
        if numeric ∧ code < 0 then
          (some (readFieldMissingRange chunk).1, some (readFieldMissingRange chunk).2)
        else (none, none)
    , strings :=
        if (¬numeric) ∧ code > 0 then readFieldMissingStrings chunk code else [] }

/-- `readField`: the 28-byte fixed body, then the optional label and the
optional missing-value block. -/
def readField (buf : List Nat) : Parse Header := do
  let start ← getPos
  let chunk ← nextM buf 28
  let code := getInt32LE chunk 0
  let labeled := getInt32LE chunk 4
  let missings := getInt32LE chunk 8
  let name := jsTrim (utf8Decode (jsSlice chunk 20 28))
  let label ← if labeled ≠ 0 then readFieldLabel buf else Parse.pure ""
  let missing ←
    if missings ≠ 0 then readFieldMissing buf (code = 0) missings
    else Parse.pure { codes := [], range := (none, none), strings := [] }
  Parse.pure { start := start, code := code, name := name, label := label,
               missing := missing, trailers := 0 }

/-- `getLevel`: 9 bytes holding an 8-byte little-endian double key and a
signed label length; the label is padded past the `length + 1` boundary to
a multiple of 8 and trimmed to the declared length. -/
def getLevel (buf : List Nat) : Parse (JSNum × String) := do
  let view ← nextM buf 9
  let length := getInt8 view 8
  let size :=
    if Int.tmod (length + 1) 8 ≠ 0 then length + (8 - Int.tmod (length + 1) 8) else length
  let text ← nextM buf size
  Parse.pure (getFloat64 view 0 true, jsTrim (jsSubstring (utf8Decode text) length.toNat))

/-- The sequential `readArray.map(() => this.getLevel(feeder))` loop. -/
def getLevels (buf : List Nat) : Nat → Parse (List (JSNum × String))
  | 0 => Parse.pure []
  | n + 1 => do
    let l ← getLevel buf
    let ls ← getLevels buf n
    Parse.pure (l :: ls)

/-- `readScale`: a value-label table, with the magic-4 check after the
levels. -/
def readScale (buf : List Nat) : Parse Scale := do
  let countChunk ← nextM buf 4
  let count := getInt32LE countChunk 0
  let _ ← newArrayP count
  let levels ← getLevels buf count.toNat
  let view ← nextM buf 8
  let magic := getInt32LE view 0
  let icount := getInt32LE view 4
  if magic ≠ 4 then
    perror ("Levels read error. Magic value Expected: 4 Actual: " ++ toString magic)
  else do
    let iview ← nextM buf (4 * icount)
    let units ← newArrayP icount
    Parse.pure { map := levels,
                 indices := jsSetList (units.map (fun idx => getInt32LE iview (idx * 4))) }

/-- `readDocument`: a 4-byte line count then 80-byte text slots. -/
def readDocument (buf : List Nat) : Parse (List String) := do
  let countChunk ← nextM buf 4
  let count := getInt32LE countChunk 0
  let chunk ← nextM buf (count * 80)
  let docArray ← newArrayP count
  Parse.pure (docArray.map (fun idx =>
    utf8Decode (jsSlice chunk ((idx : Int) * 80) ((idx : Int) * 80 + 80))))

/-- `readSysInteger`: subtype-3 payload, eight little-endian int32s. -/
def readSysInteger (buf : List Nat) : Parse SysInteger := do
  let view ← nextM buf 32
  Parse.pure
    { major := some (getInt32LE view 0), minor := some (getInt32LE view 4)
    , revision := some (getInt32LE view 8), machine := some (getInt32LE view 12)
    , float := some (getInt32LE view 16), compression := some (getInt32LE view 20)
    , endianness := some (getInt32LE view 24), character := some (getInt32LE view 28) }

/-- `readSysFloat`: subtype-4 payload, three little-endian doubles. -/
def readSysFloat (buf : List Nat) : Parse SysFloat := do
  let view ← nextM buf 24
  Parse.pure
    { missing := some (getFloat64 view 0 true), high := some (getFloat64 view 8 true)
    , low := some (getFloat64 view 16 true) }

/-- `readSysDisplay`: display-format triples. -/
def readSysDisplay (buf : List Nat) (count : Int) : Parse (List Display) := do
  let view ← nextM buf (count * 12)
  let dispArray ← newArrayP count
  Parse.pure (dispArray.map (fun idx =>
    { type := getInt32LE view (idx * 12), width := getInt32LE view (idx * 12 + 4)
    , align := getInt32LE view (idx * 12 + 8) : Display }))

/-- Split a `name=value` pair as the source casts it; a missing `=` leaves
the JS value `undefined`, modelled as the empty string. -/
def splitPair (str : String) : String × String :=
  let parts := str.splitOn "="
  (parts.headD "", (parts.get? 1).getD "")

/-- `readNames`: a tab-separated `name=value` text blob. -/
def readNames (buf : List Nat) (size : Int) : Parse (List (String × String)) := do
  let raw ← nextM buf size
  Parse.pure (((utf8Decode raw).splitOn "\t").map splitPair)

/-- `readLongWidths`: like `readNames` but dropping the trailing pair and
parsing values as integers (`none` models a NaN parse). -/
def readLongWidths (buf : List Nat) (size : Int) : Parse (List (String × Option Int)) := do
  let raw ← nextM buf size
  let rows := (utf8Decode raw).splitOn "\t"
  Parse.pure ((rows.dropLast.map splitPair).map (fun p => (p.1, jsParseInt p.2)))

/-- `readLongNames`: the subtype-21 payload is kept as raw bytes (the
source notes its structure is not decoded). -/
def readLongNames (buf : List Nat) (size : Int) : Parse (List Nat) :=
  nextM buf size

/-- `readUnrecognized`: consume `count * length` bytes and slice them into
`count` fixed-size records. -/
def readUnrecognized (buf : List Nat) (count length : Int) : Parse (List (List Nat)) := do
  let chunk ← nextM buf (count * length)
  let readArray ← newArrayP count
  Parse.pure (readArray.map (fun idx =>
    jsSlice chunk ((idx : Int) * length) ((idx : Int) * length + length)))

end SavParser

/-- The `Partial<Internal>` accumulator of `readInternal`; every field
starts `undefined`. -/
structure InternalAcc where
  float : Option SysFloat := none
  integer : Option SysInteger := none
  display : Option (List Display) := none
  documents : Option (List String) := none
  names : Option (List (String × String)) := none
  longs : Option (List (String × Option Int)) := none
  levels : Option (List Scale) := none
  extra : Option (List (List Nat)) := none
  unrecognized : Option (List (Int × List (List Nat))) := none
  finished : Option Int := none
deriving DecidableEq, Repr

/-- JS truthiness of `partial.finished` (`undefined` and `0` are falsy). -/
def truthyFinished : Option Int → Bool
  | none => false
  | some n => n != 0

/-- The `??`-defaulted assembly of the final `Internal` value. -/
def finalizeInternal (p : InternalAcc) : Internal :=
  { float := p.float.getD { missing := none, high := none, low := none }
  , integer := p.integer.getD
      { major := none, minor := none, revision := none, machine := none
      , float := none, compression := none, endianness := none, character := none }
  , display := p.display.getD [], documents := p.documents.getD []
  , names := p.names.getD [], longs := p.longs.getD []
  , levels := p.levels.getD [], extra := p.extra.getD []
  , unrecognized := p.unrecognized.getD []
  -- the loop exits only once `finished` is set and truthy
  , finished := p.finished.getD 0 }

namespace SavParser

/-- The `while (!partial.finished)` loop of `readInternal`, with fuel. -/
def readInternalLoop (buf : List Nat) : Nat → InternalAcc → Parse Internal
  | 0, _ => perror fuelMsg
  | fuel + 1, p =>
    if truthyFinished p.finished then Parse.pure (finalizeInternal p)
    else do
      let chunk ← nextM buf 4
      let code := getInt32LE chunk 0
      if code = 3 then do
        let scale ← readScale buf
        readInternalLoop buf fuel { p with levels := some ((p.levels.getD []) ++ [scale]) }
      else if code = 6 then do
        let doc ← readDocument buf
        readInternalLoop buf fuel { p with documents := some ((p.documents.getD []) ++ doc) }
      else if code = 7 then do
        let subview ← nextM buf 12
        let subcode := getInt32LE subview 0
        let length := getInt32LE subview 4
        let count := getInt32LE subview 8
        if subcode = 3 then
          if length * count ≠ 32 then
            perror ("Special code 3 Expected: 32 bytes Actual: " ++ toString (length * count))
          else do
            let integer ← readSysInteger buf
            readInternalLoop buf fuel { p with integer := some integer }
        else if subcode = 4 then
          if length * count ≠ 24 then
            perror ("Special code 4 Expected: 24 bytes Actual: " ++ toString (length * count))
          else do
            let float ← readSysFloat buf
            readInternalLoop buf fuel { p with float := some float }
        else if subcode = 11 then
          if length ≠ 4 then
            perror ("Special code 11 Expected: 4 bytes Actual: " ++ toString length)
          else if Int.tmod count 3 ≠ 0 then
            perror ("Special code 11 Expected: Length factor of 3 Actual: " ++ toString length)
          else do
            let d ← readSysDisplay buf (count / 3)
            readInternalLoop buf fuel { p with display := some ((p.display.getD []) ++ d) }
        else if subcode = 13 then do
          let ns ← readNames buf (count * length)
          readInternalLoop buf fuel { p with names := some ((p.names.getD []) ++ ns) }
        else if subcode = 14 then do
          let ls ← readLongWidths buf (count * length)
          readInternalLoop buf fuel { p with longs := some ((p.longs.getD []) ++ ls) }
        else if subcode = 21 then do
          let ex ← readLongNames buf (count * length)
          readInternalLoop buf fuel { p with extra := some ((p.extra.getD []) ++ [ex]) }
        else do
          let u ← readUnrecognized buf count length
          readInternalLoop buf fuel
            { p with unrecognized := some ((p.unrecognized.getD []) ++ [(subcode, u)]) }
      else if code = 999 then do
        let _ ← nextM buf 4
        let pos ← getPos
        readInternalLoop buf fuel { p with finished := some pos }
      else
        perror ("Internal Code Expected : [3, 6, 7, 999] Actual : " ++ toString code)

/-- `readInternal`, entered with an empty accumulator and enough fuel for
any terminating run (each iteration consumes at least 4 bytes). -/
def readInternal (buf : List Nat) : Parse Internal :=
  readInternalLoop buf (buf.length + 64) {}

/-- The field loop of `readFields`: read a 4-byte tag; tag 2 starts a
field record, anything else rewinds 4 bytes and ends the loop.  A field
with negative type code increments the trailer counter of the most
recently appended field (a JS TypeError if there is none). -/
def readFieldsLoop (buf : List Nat) : Nat → List Header → Parse (List Header)
  | 0, _ => perror fuelMsg
  | fuel + 1, fields => do
    let chunk ← nextM buf 4
    let code := getInt32LE chunk 0
    if code ≠ 2 then do
      let p ← getPos
      let _ ← jumpM buf (p - 4)
      Parse.pure fields
    else do
      let field ← readField buf
      if field.code > -1 then readFieldsLoop buf fuel (fields ++ [field])
      else
        match fields.getLast? with
        | none => perror "TypeError: Cannot read properties of undefined"
        | some last =>
          readFieldsLoop buf fuel (fields.dropLast ++ [{ last with trailers := last.trailers + 1 }])

/-- `readFields`. -/
def readFields (buf : List Nat) : Parse (List Header) :=
  readFieldsLoop buf (buf.length + 64) []

end SavParser

/-! ## DataReader

The row decoder carries, besides the feeder cursor, the current 8-byte
instruction block and a cursor into it (constructed at 8, forcing a fetch
on first use). -/

/-- DataReader state: the feeder cursor plus the instruction buffer. -/
structure DState where
  cursor : Int
  instructions : List Nat
  icursor : Nat
deriving DecidableEq, Repr

/-- A DataReader computation. -/
def DParse (α : Type) : Type := DState → Except Err α × DState

def DParse.bind (m : DParse α) (k : α → DParse β) : DParse β := fun s =>
  match m s with
  | (.ok a, s') => k a s'
  | (.error e, s') => (.error e, s')

def DParse.pure (a : α) : DParse α := fun s => (.ok a, s)

instance : Monad DParse where
  pure := DParse.pure
  bind := DParse.bind

/-- Run a feeder-level computation inside the DataReader state. -/
def liftF (m : Parse α) : DParse α := fun s =>
  match m s.cursor with
  | (r, c') => (r, { s with cursor := c' })

namespace DataReader

/-- `compressedCodes`: serve the next nonzero instruction byte, fetching a
fresh 8-byte block whenever the block cursor passes 7 and transparently
skipping zero bytes.  Fuel models the `do ... while` loop. -/
def compressedCodes (buf : List Nat) : Nat → DState → Except Err Nat × DState
  | 0, s => (.error fuelMsg, s)
  | fuel + 1, s0 =>
    let fetched : Except (Err × Int) DState :=
      if s0.icursor > 7 then
        match Feeder.next ⟨buf, s0.cursor⟩ 8 with
        | (.error e, f) => .error (e, f.cursor)
        | (.ok chunk, f) => .ok ⟨f.cursor, chunk, 0⟩
      else .ok s0
    match fetched with
    | .error (e, c) => (.error e, { s0 with cursor := c })
    | .ok s =>
      let instruction := byteAt s.instructions s.icursor
      let s' := { s with icursor := s.icursor + 1 }
      if instruction = 0 then compressedCodes buf fuel s' else (.ok instruction, s')

/-- `uncompressedNumber`: 8 bytes as a double whose endianness follows the
subtype-3 `endianness === 2` test. -/
def uncompressedNumber (buf : List Nat) (endianness : Option Int) : DParse JSNum := fun s =>
  match Feeder.next ⟨buf, s.cursor⟩ 8 with
  | (.error e, f) => (.error e, { s with cursor := f.cursor })
  | (.ok chunk, f) =>
    (.ok (getFloat64 chunk 0 (endianness = some 2 : Bool)), { s with cursor := f.cursor })

/-- `uncompressedString`: the `do ... while (--length)` loop.  The source
calls `pieces.concat(...)`, whose result is discarded, so `pieces` stays
as passed in; the decoded chunk has no other effect.  `length` is a JS
number (negative values keep the loop running until the feeder is
exhausted), hence the fuel. -/
def uncompressedString (buf : List Nat) :
    Nat → Int → List String → DState → Except Err String × DState
  | 0, _, _, s => (.error fuelMsg, s)
  | fuel + 1, length, pieces, s =>
    match Feeder.next ⟨buf, s.cursor⟩ 8 with
    | (.error e, f) => (.error e, { s with cursor := f.cursor })
    | (.ok _chunk, f) =>
      let s' := { s with cursor := f.cursor }
      -- pieces.concat(this.decoder.decode(chunk)) : result dropped
      let length' := length - 1
      if length' = 0 then (.ok (String.join pieces), s')
      else uncompressedString buf fuel length' pieces s'

/-- `compressedNumber`: one instruction code decides the cell. -/
def compressedNumber (buf : List Nat) (bias : JSNum) (fuel : Nat) : DParse (Option JSNum) :=
  fun s =>
  match compressedCodes buf fuel s with
  | (.error e, s') => (.error e, s')
  | (.ok code, s') =>
    if code = 252 then (.error "Unexpected end of records.", s')
    else if code = 253 then
      match Feeder.next ⟨buf, s'.cursor⟩ 8 with
      | (.error e, f) => (.error e, { s' with cursor := f.cursor })
      | (.ok chunk, f) =>
        (.ok (some (getFloat64 chunk 0 true)), { s' with cursor := f.cursor })
    else if code = 254 then (.error "Cell code type mismatch", s')
    else if code = 255 then (.ok none, s')
    else (.ok (some (JSNum.sub (.num code) bias)), s')

/-- `compressedString`: the `do ... while (--length)` loop over the
required segments, one instruction code per segment. -/
def compressedString (buf : List Nat) :
    Nat → Int → List String → DState → Except Err (Option String) × DState
  | 0, _, _, s => (.error fuelMsg, s)
  | fuel + 1, length, pieces, s =>
    match compressedCodes buf (fuel + 1) s with
    | (.error e, s') => (.error e, s')
    | (.ok code, s') =>
      if code = 252 then (.error "Unexpected end of records.", s')
      else if code = 253 then
        match Feeder.next ⟨buf, s'.cursor⟩ 8 with
        | (.error e, f) => (.error e, { s' with cursor := f.cursor })
        | (.ok chunk, f) =>
          let s'' := { s' with cursor := f.cursor }
          let pieces' := pieces ++ [utf8Decode chunk]
          let length' := length - 1
          if length' = 0 then (.ok (some (String.join pieces')), s'')
          else compressedString buf fuel length' pieces' s''
      else if code = 254 then
        let pieces' := pieces ++ [""]
        let length' := length - 1
        if length' = 0 then (.ok (some (String.join pieces')), s')
        else compressedString buf fuel length' pieces' s'
      else if code = 255 then (.ok none, s')
      else (.error "Default code not supported for strings.", s')

/-- `readNumber`: dispatch on the truthiness of the compression flag;
the uncompressed branch always yields a number. -/
def readNumber (buf : List Nat) (compression : Int) (endianness : Option Int) (bias : JSNum)
    (fuel : Nat) : DParse (Option JSNum) :=
  if compression ≠ 0 then compressedNumber buf bias fuel
  else fun s =>
    match uncompressedNumber buf endianness s with
    | (.ok v, s') => (.ok (some v), s')
    | (.error e, s') => (.error e, s')

/-- `readString`: dispatch on the compression flag; the uncompressed
branch always yields a string. -/
def readString (buf : List Nat) (compression : Int) (fuel : Nat) (length : Int) :
    DParse (Option String) :=
  if compression ≠ 0 then compressedString buf fuel length []
  else fun s =>
    match uncompressedString buf fuel length [] s with
    | (.ok v, s') => (.ok (some v), s')
    | (.error e, s') => (.error e, s')

/-- `Math.ceil(code / 8)` on a JS int32. -/
def ceilDiv8 (code : Int) : Int := Int.fdiv (code + 7) 8

/-- `readCell`: a truthy type code means a string of
`Math.ceil(code / 8)` segments, a zero code a number. -/
def readCell (buf : List Nat) (compression : Int) (endianness : Option Int) (bias : JSNum)
    (fuel : Nat) (header : Header) : DParse Cell :=
  if header.code ≠ 0 then fun s =>
    match readString buf compression fuel (ceilDiv8 header.code) s with
    | (.ok (some str), s') => (.ok (.str str), s')
    | (.ok none, s') => (.ok .null, s')
    | (.error e, s') => (.error e, s')
  else fun s =>
    match readNumber buf compression endianness bias fuel s with
    | (.ok (some v), s') => (.ok (.num v), s')
    | (.ok none, s') => (.ok .null, s')
    | (.error e, s') => (.error e, s')

/-- `readRow`: decode one cell per header, in declaration order. -/
def readRow (buf : List Nat) (compression : Int) (endianness : Option Int) (bias : JSNum)
    (fuel : Nat) : List Header → DParse Row
  | [] => DParse.pure []
  | h :: t => do
    let c ← readCell buf compression endianness bias fuel h
    let rest ← readRow buf compression endianness bias fuel t
    DParse.pure ((h.name, c) :: rest)

/-- The `new Array(cases).fill(0).map(...)` row loop. -/
def readRows (buf : List Nat) (compression : Int) (endianness : Option Int) (bias : JSNum)
    (fuel : Nat) (headers : List Header) : Nat → DParse (List Row)
  | 0 => DParse.pure []
  | n + 1 => do
    let r ← readRow buf compression endianness bias fuel headers
    let rs ← readRows buf compression endianness bias fuel headers n
    DParse.pure (r :: rs)

/-- Per-cell loop fuel used by `read`: a successful compressed cell never
needs more iterations than this. -/
def runFuel (buf : List Nat) : Nat := 8 * buf.length + 64

/-- `read`: jump to the case-data start, decode `cases` rows, jump back
to the position recorded at construction (`new Array(cases)` throws a
RangeError when `cases` is negative). -/
def read (buf : List Nat) (schema : Schema) (pos : Int) : DParse (List Row) := do
  let _ ← liftF (jumpM buf schema.internal.finished)
  if schema.meta.cases < 0 then liftF (perror "Invalid array length")
  else do
    let rows ← readRows buf schema.meta.compression schema.internal.integer.endianness
      schema.meta.bias (runFuel buf) schema.headers schema.meta.cases.toNat
    let _ ← liftF (jumpM buf pos)
    DParse.pure rows

/-- `new DataReader(schema, feeder).read()`: the construction records the
feeder position (`this.position`) and starts the instruction cursor at 8;
`read` runs in that state and only the feeder cursor survives the call. -/
def readAll (buf : List Nat) (schema : Schema) : Parse (List Row) := fun c =>
  match read buf schema c ⟨c, [], 8⟩ with
  | (r, s) => (r, s.cursor)

end DataReader

namespace SavParser

/-- The promise body of `meta`: read the 176-byte header, check the
4-byte magic, then decode every fixed-offset subfield.  In the source the
`reject` on a magic mismatch wins over the unconditional `resolve` that
follows it, so the mismatch branch is an error. -/
def metaBody (buf : List Nat) : Parse Meta := do
  let chunk ← nextM buf 176
  let magic := utf8Decode (jsSlice chunk 0 4)
  if magic ≠ "$FL2" then
    perror ("File is not a sav. Magic key Expected: \"$FL2\" Actual: " ++ magic)
  else
    Parse.pure
      { product := jsTrim (utf8Decode (jsSlice chunk 4 64))
      , layout := getInt32LE chunk 64
      , «variables» := getInt32LE chunk 68
      , compression := getInt32LE chunk 72
      , weightIndex := getInt32LE chunk 76
      , cases := getInt32LE chunk 80
      , bias := getFloat64 chunk 84 true
      , createdDate := utf8Decode (jsSlice chunk 92 101)
      , createdTime := utf8Decode (jsSlice chunk 101 109)
      , label := jsTrim (utf8Decode (jsSlice chunk 109 173)) }

/-- `meta`: record the position, jump to 0 (always in bounds), run the
body, and restore the position in a `finally`. -/
def meta (buf : List Nat) : Parse Meta := fun c0 =>
  match jumpM buf 0 c0 with
  | (.error e, c) => (.error e, c)
  | (.ok _, c) => finallyJump buf c0 (metaBody buf) c

/-- `headers`: both the jump to 176 and the `readFields` call run
synchronously, before `Promise.resolve` creates the promise, so either
failure is a synchronous throw to which no `finally` restore is
attached: the jump failure happens with the cursor unmoved, and a
`readFields` failure leaves the cursor wherever the failure occurred.
Only a successfully computed field list gets the `finally` restore. -/
def headers (buf : List Nat) : Parse (List Header) := fun c0 =>
  match jumpM buf 176 c0 with
  | (.error e, c) => (.error e, c)
  | (.ok _, c) =>
    match readFields buf c with
    | (.error e, c') => (.error e, c')
    | (.ok hs, c') =>
      match jumpM buf c0 c' with
      | (.error e, c2) => (.error e, c2)
      | (.ok _, c2) => (.ok hs, c2)

/-- The promise chain of `schema` before its `finally`. -/
def schemaBody (buf : List Nat) : Parse Schema := do
  let m ← meta buf
  let _ ← jumpM buf 176
  let hs ← readFields buf
  let internal ← readInternal buf
  Parse.pure { meta := m, headers := hs, internal := internal }

/-- `schema`. -/
def schema (buf : List Nat) : Parse Schema := fun c0 =>
  finallyJump buf c0 (schemaBody buf) c0

/-- The promise chain of `all` before its `finally`. -/
def allBody (buf : List Nat) : Parse Parsed := do
  let sch ← schema buf
  let rows ← DataReader.readAll buf sch
  Parse.pure { meta := sch.meta, headers := sch.headers, internal := sch.internal, rows := rows }

/-- `all`. -/
def all (buf : List Nat) : Parse Parsed := fun c0 =>
  finallyJump buf c0 (allBody buf) c0

end SavParser

/-! ## Helper lemmas -/

theorem Parse_bind_ok {α β : Type} (m : Parse α) (k : α → Parse β) (c : Int) (b : β) (c2 : Int) :
    Parse.bind m k c = (.ok b, c2) ↔
      ∃ a c1, m c = (.ok a, c1) ∧ k a c1 = (.ok b, c2) := by
  constructor
  · intro h
    unfold Parse.bind at h
    revert h
    match hm : m c with
    | (.ok a, c1) => intro h; exact ⟨a, c1, rfl, h⟩
    | (.error e, c1) => intro h; cases h
  · rintro ⟨a, c1, h1, h2⟩
    unfold Parse.bind
    rw [h1]
    exact h2

theorem jumpM_inbounds (buf : List Nat) (p c : Int) (h0 : 0 ≤ p) (h1 : p ≤ (buf.length : Int)) :
    jumpM buf p c = (.ok (), p) := by
  have h : ¬(p < 0 ∨ p > (buf.length : Int)) := by
    push_neg
    exact ⟨h0, h1⟩
  unfold jumpM Feeder.jump
  rw [if_neg h]

/-- The `finally` restore always leaves the cursor at the recorded
position when that position is in bounds. -/
theorem finallyJump_cursor (buf : List Nat) (pos : Int) (body : Parse α) (c : Int)
    (h0 : 0 ≤ pos) (h1 : pos ≤ (buf.length : Int)) :
    (finallyJump buf pos body c).2 = pos := by
  simp only [finallyJump]
  rw [jumpM_inbounds buf pos (body c).2 h0 h1]

/-- A successful `finally`-wrapped computation comes from a successful
body with the same value. -/
theorem finallyJump_ok (buf : List Nat) (pos : Int) (body : Parse α) (c : Int)
    (a : α) (c2 : Int) (h : finallyJump buf pos body c = (.ok a, c2)) :
    ∃ c1, body c = (.ok a, c1) := by
  simp only [finallyJump] at h
  revert h
  match hj : jumpM buf pos (body c).2 with
  | (.ok u, c3) =>
    intro h
    have h1 : (body c).1 = Except.ok a := congrArg Prod.fst h
    exact ⟨(body c).2, by rw [← h1]⟩
  | (.error e, c3) =>
    intro h
    exact absurd (congrArg Prod.fst h) (by simp)

/-- Reading into a `jsSlice` inside the valid index range is a plain
drop/take. -/
theorem jsSlice_eq_drop_take (bs : List Nat) (a b : Int)
    (ha : 0 ≤ a) (hab : a ≤ b) (hb : b ≤ (bs.length : Int)) :
    jsSlice bs a b = (bs.drop a.toNat).take (b - a).toNat := by
  unfold jsSlice
  have hna : ¬ a < 0 := not_lt.mpr ha
  have hnb : ¬ b < 0 := not_lt.mpr (le_trans ha hab)
  simp only [hna, hnb, if_neg, if_false]
  have hma : min a (bs.length : Int) = a := min_eq_left (le_trans hab hb)
  have hmb : min b (bs.length : Int) = b := min_eq_left hb
  rw [hma, hmb, List.drop_take]
  congr 1
  omega

/-! ## C10: Feeder operations and failure framing -/

/-- C10: for every Feeder state, failing operations leave the cursor
unchanged: `jump(p)` out of bounds (`p < 0` or `p > length`) throws and
keeps the prior cursor, `next(size)` with fewer than `size` bytes left
throws and keeps the prior cursor; a successful `next(size)` returns
exactly `size` bytes starting at the old cursor and advances the cursor
by exactly `size`. -/
theorem C10_feeder_frame (f : Feeder) (p size : Int)
    (hcur : 0 ≤ f.cursor) (hsize : 0 ≤ size) :
    ((p < 0 ∨ p > (f.buffer.length : Int)) →
      Feeder.jump f p = (.error "Jump to out-of-bounds position", f)) ∧
    (f.cursor + size > (f.buffer.length : Int) →
      Feeder.next f size = (.error "Unexpected End of File", f)) ∧
    (f.cursor + size ≤ (f.buffer.length : Int) →
      Feeder.next f size =
        (.ok ((f.buffer.drop f.cursor.toNat).take size.toNat),
         { f with cursor := f.cursor + size }) ∧
      ((f.buffer.drop f.cursor.toNat).take size.toNat).length = size.toNat) := by
  refine ⟨?_, ?_, ?_⟩
  · intro h
    unfold Feeder.jump
    rw [if_pos h]
  · intro h
    unfold Feeder.next
    rw [if_pos h]
  · intro h
    constructor
    · simp only [Feeder.next]
      rw [if_neg (not_lt.mpr h)]
      rw [show f.cursor + size - size = f.cursor from by ring]
      rw [jsSlice_eq_drop_take f.buffer f.cursor (f.cursor + size) hcur (by omega) h]
      rw [show f.cursor + size - f.cursor = size from by ring]
    · rw [List.length_take, List.length_drop]
      omega

set_option maxRecDepth 100000 in
/-- Witness for C10 at a concrete feeder. -/
theorem C10_witness :
    Feeder.jump ⟨[1, 2, 3], 1⟩ 5 = (.error "Jump to out-of-bounds position", ⟨[1, 2, 3], 1⟩) ∧
    Feeder.next ⟨[1, 2, 3], 1⟩ 5 = (.error "Unexpected End of File", ⟨[1, 2, 3], 1⟩) ∧
    Feeder.next ⟨[1, 2, 3], 1⟩ 2 = (.ok [2, 3], ⟨[1, 2, 3], 3⟩) := by
  refine ⟨(C10_feeder_frame ⟨[1, 2, 3], 1⟩ 5 2 (by decide) (by decide)).1 (Or.inr (by decide)),
          (C10_feeder_frame ⟨[1, 2, 3], 1⟩ 0 5 (by decide) (by decide)).2.1 (by decide), ?_⟩
  exact ((C10_feeder_frame ⟨[1, 2, 3], 1⟩ 0 2 (by decide) (by decide)).2.2 (by decide)).1.trans
    (by rfl)

/-! ## C2: cursor restoration by the entry points

`meta`, `schema` and `all` run their bodies inside a promise chain whose
`finally` restores the recorded cursor on success and on failure.
`headers` is different: its `readFields` call runs synchronously before
`Promise.resolve` creates the promise, so a `readFields` failure throws
before the `finally` restore is attached and leaves the cursor moved. -/

theorem jumpM_ok_cursor (buf : List Nat) (p c c' : Int) (u : Unit)
    (h : jumpM buf p c = (.ok u, c')) : c' = p := by
  unfold jumpM Feeder.jump at h
  by_cases hc : p < 0 ∨ p > (buf.length : Int)
  · rw [if_pos hc] at h
    replace h : ((Except.error "Jump to out-of-bounds position" : Except Err Unit), c)
        = (Except.ok u, c') := h
    exact absurd (congrArg Prod.fst h) (by simp)
  · rw [if_neg hc] at h
    replace h : ((Except.ok () : Except Err Unit), p) = (Except.ok u, c') := h
    exact (congrArg Prod.snd h).symm

/-- A 180-byte buffer: 176 filler bytes, then a tag-2 record marker with
no field body behind it, so `readFields` fails mid-dictionary. -/
def demoC2buf : List Nat := List.replicate 176 0 ++ [2, 0, 0, 0]

set_option maxRecDepth 1000000 in
/-- Counterexample to C2 as stated: on `demoC2buf`, `headers` entered at
cursor 0 fails inside `readFields` (EOF reading the field body after
the tag-2 marker at offset 176) and returns with the cursor at 180, not
restored to its entry position 0 — the synchronous throw escapes before
the `finally` restore is attached. -/
theorem C2_headers_counterexample :
    SavParser.headers demoC2buf 0 = (.error "Unexpected End of File", 180) ∧
    (SavParser.headers demoC2buf 0).2 ≠ 0 :=
  ⟨rfl, by decide⟩

/-- C2 (amended): `meta`, `schema` and `all` leave the cursor at its
entry position after the call returns, both on success and on failure;
`headers` restores the cursor whenever it succeeds, and when its
initial jump fails on a buffer shorter than 176 bytes the cursor is
also unmoved — but a `readFields` failure inside `headers` escapes
synchronously without the restore. -/
theorem C2_entry_points_restore_amended (buf : List Nat) (c0 : Int)
    (h0 : 0 ≤ c0) (h1 : c0 ≤ (buf.length : Int)) :
    (SavParser.meta buf c0).2 = c0 ∧
    (SavParser.schema buf c0).2 = c0 ∧
    (SavParser.all buf c0).2 = c0 ∧
    (∀ hs c', SavParser.headers buf c0 = (.ok hs, c') → c' = c0) ∧
    ((176 : Int) > (buf.length : Int) → (SavParser.headers buf c0).2 = c0) := by
  refine ⟨?_, ?_, ?_, ?_, ?_⟩
  · unfold SavParser.meta
    rw [jumpM_inbounds buf 0 c0 (le_refl 0) (Int.ofNat_nonneg _)]
    exact finallyJump_cursor buf c0 (SavParser.metaBody buf) 0 h0 h1
  · unfold SavParser.schema
    exact finallyJump_cursor buf c0 (SavParser.schemaBody buf) c0 h0 h1
  · unfold SavParser.all
    exact finallyJump_cursor buf c0 (SavParser.allBody buf) c0 h0 h1
  · intro hs c' h
    unfold SavParser.headers at h
    rcases hj : jumpM buf 176 c0 with ⟨r1, c1⟩
    rcases r1 with e1 | u1 <;> simp only [hj] at h
    · exact absurd (congrArg Prod.fst h) (by simp)
    · rcases hr : SavParser.readFields buf c1 with ⟨r2, c2⟩
      rcases r2 with e2 | hs2 <;> simp only [hr] at h
      · exact absurd (congrArg Prod.fst h) (by simp)
      · rcases hj2 : jumpM buf c0 c2 with ⟨r3, c3⟩
        rcases r3 with e3 | u3 <;> simp only [hj2] at h
        · exact absurd (congrArg Prod.fst h) (by simp)
        · have hc := congrArg Prod.snd h
          rw [show ((Except.ok hs2, c3) : Except Err (List Header) × Int).2 = c3 from rfl,
            show ((Except.ok hs, c') : Except Err (List Header) × Int).2 = c' from rfl] at hc
          rw [← hc]
          exact jumpM_ok_cursor buf c0 c2 c3 u3 hj2
  · intro hb
    unfold SavParser.headers
    have hj : jumpM buf 176 c0 = (.error "Jump to out-of-bounds position", c0) := by
      unfold jumpM Feeder.jump
      rw [if_pos (Or.inr (by change (176 : Int) > (buf.length : Int); omega))]
    rw [hj]

/-- A 180-byte buffer on which `headers` succeeds: 176 filler bytes,
then the end-of-dictionary marker 999, so `readFields` returns an empty
field list and the `finally` restore runs. -/
def demoC2okBuf : List Nat := List.replicate 176 0 ++ [231, 3, 0, 0]

set_option maxRecDepth 1000000 in
/-- Witness for the amended C2 at a concrete buffer and cursor: the
three promise-chained entry points end with the cursor restored to 0,
and the successful `headers` run also ends at 0. -/
theorem C2_witness :
    SavParser.headers demoC2okBuf 0 = (.ok [], 0) ∧
    (SavParser.meta demoC2okBuf 0).2 = 0 ∧
    (SavParser.schema demoC2okBuf 0).2 = 0 ∧
    (SavParser.all demoC2okBuf 0).2 = 0 := by
  have h := C2_entry_points_restore_amended demoC2okBuf 0 (by decide) (by decide)
  exact ⟨rfl, h.1, h.2.1, h.2.2.1⟩

/-! ## C3: compressed numeric cell decoding -/

/-- The instruction reader never serves a zero byte: zero is filler and is
skipped by the `do ... while (instruction === 0)` loop. -/
theorem compressedCodes_ne_zero (buf : List Nat) (fuel : Nat) (s s' : DState) (code : Nat)
    (h : DataReader.compressedCodes buf fuel s = (.ok code, s')) : code ≠ 0 := by
  induction fuel generalizing s with
  | zero =>
    unfold DataReader.compressedCodes at h
    exact absurd (congrArg Prod.fst h) (by simp)
  | succ fuel ih =>
    simp only [DataReader.compressedCodes] at h
    split at h
    · exact absurd (congrArg Prod.fst h) (by simp)
    · split at h
      · exact ih _ h
      · rename_i hnz
        simp only [Prod.mk.injEq, Except.ok.injEq] at h
        rcases h with ⟨h1, h2⟩
        rw [← h1]
        exact hnz


/-- C3: a compressed numeric cell reads one instruction code `c`; for
`c` in `[1, 251]` the value is `c - bias`, 255 yields null, 253 decodes
the next raw 8 bytes as a little-endian ("low-endian-first") double, 252
and 254 are fatal errors, and code 0 is never served by the instruction
reader. -/
theorem C3_compressed_number_cases (buf : List Nat) (fuel : Nat) (bias : JSNum)
    (s s' : DState) (code : Nat)
    (h : DataReader.compressedCodes buf fuel s = (.ok code, s')) :
    code ≠ 0 ∧
    (1 ≤ code ∧ code ≤ 251 →
      DataReader.compressedNumber buf bias fuel s =
        (.ok (some (JSNum.sub (.num code) bias)), s')) ∧
    (code = 253 →
      DataReader.compressedNumber buf bias fuel s =
        (match Feeder.next ⟨buf, s'.cursor⟩ 8 with
         | (.error e, f) => (.error e, { s' with cursor := f.cursor })
         | (.ok chunk, f) =>
           (.ok (some (getFloat64 chunk 0 true)), { s' with cursor := f.cursor }))) ∧
    (code = 255 → DataReader.compressedNumber buf bias fuel s = (.ok none, s')) ∧
    (code = 252 →
      DataReader.compressedNumber buf bias fuel s = (.error "Unexpected end of records.", s')) ∧
    (code = 254 →
      DataReader.compressedNumber buf bias fuel s = (.error "Cell code type mismatch", s')) := by
  refine ⟨compressedCodes_ne_zero buf fuel s s' code h, ?_, ?_, ?_, ?_, ?_⟩
  · intro hc
    unfold DataReader.compressedNumber
    simp only [h]
    rw [if_neg (show ¬ code = 252 by omega), if_neg (show ¬ code = 253 by omega),
        if_neg (show ¬ code = 254 by omega), if_neg (show ¬ code = 255 by omega)]
  · intro hc
    subst hc
    unfold DataReader.compressedNumber
    simp only [h]
    simp
  · intro hc
    subst hc
    unfold DataReader.compressedNumber
    simp only [h]
    simp
  · intro hc
    subst hc
    unfold DataReader.compressedNumber
    simp only [h]
    simp
  · intro hc
    subst hc
    unfold DataReader.compressedNumber
    simp only [h]
    simp

/-- Witness for C3: instruction byte 7 with bias 100 decodes to -93. -/
theorem C3_witness :
    DataReader.compressedNumber [] (JSNum.num 100) 1 ⟨0, [7, 0, 0, 0, 0, 0, 0, 0], 0⟩ =
      (.ok (some (JSNum.num (-93))), ⟨0, [7, 0, 0, 0, 0, 0, 0, 0], 1⟩) ∧ (7 : Nat) ≠ 0 := by
  have h : DataReader.compressedCodes [] 1 ⟨0, [7, 0, 0, 0, 0, 0, 0, 0], 0⟩ =
      (.ok 7, ⟨0, [7, 0, 0, 0, 0, 0, 0, 0], 1⟩) := by rfl
  have h2 := C3_compressed_number_cases [] 1 (JSNum.num 100) _ _ 7 h
  refine ⟨(h2.2.1 (by omega)).trans ?_, h2.1⟩
  show (Except.ok (some (JSNum.sub (.num 7) (.num 100))), (⟨0, [7, 0, 0, 0, 0, 0, 0, 0], 1⟩ : DState)) = _
  norm_num [JSNum.sub]

/-! ## C4: uncompressed string cells (code bug)

`uncompressedString` builds `pieces` with `pieces.concat(...)`, but
`Array.prototype.concat` returns a new array and does not mutate
`pieces`; the decoded text is discarded and the function always returns
the empty string, although it does consume one 8-byte segment per loop
iteration.  Compare `compressedString`, which uses `push`. -/

set_option maxRecDepth 100000 in
/-- C4 (code bug): an uncompressed string cell of one segment over the
bytes "ABCDEFGH" consumes exactly the 8 bytes (cursor 0 to 8) but
returns the empty string, not the decoded segment text "ABCDEFGH". -/
theorem C4_uncompressed_string_bug :
    DataReader.uncompressedString [65, 66, 67, 68, 69, 70, 71, 72] 2 1 [] ⟨0, [], 8⟩ =
      (.ok "", ⟨8, [], 8⟩) ∧
    utf8Decode [65, 66, 67, 68, 69, 70, 71, 72] = "ABCDEFGH" ∧
    ("" : String) ≠ "ABCDEFGH" := by
  refine ⟨by rfl, by rfl, by decide⟩

/-! ## C6: numeric missing-value decoding (code bug)

`readFieldMissingCodes` calls `view.getFloat64(8 * idx)` without the
little-endian flag, which JS defaults to big-endian, while the adjacent
`readFieldMissingRange` passes `true`; the spec declares the layout
little-endian throughout.  The counts are as claimed (`n` discrete codes
for count `n > 0`, a range for -2, range plus one code for -3, nothing
for 0), but each discrete code is decoded with the wrong endianness. -/

set_option maxRecDepth 1000000 in
/-- C6 (code bug): a numeric field with missing count 1 over the 8-byte
block that encodes 1.0 as a little-endian double yields one discrete
code, but the code is decoded big-endian: the subnormal `61503 / 2^1074`
instead of the 1.0 the little-endian layout dictates. -/
theorem C6_missing_codes_bigendian_bug :
    SavParser.readFieldMissing [0, 0, 0, 0, 0, 0, 240, 63] true 1 0 =
      (.ok { codes := [getFloat64 [0, 0, 0, 0, 0, 0, 240, 63] 0 false]
           , range := (none, none), strings := [] }, 8) ∧
    getFloat64 [0, 0, 0, 0, 0, 0, 240, 63] 0 true = JSNum.num 1 ∧
    getFloat64 [0, 0, 0, 0, 0, 0, 240, 63] 0 false = JSNum.num (61503 * (1 / 2 ^ 1074)) ∧
    getFloat64 [0, 0, 0, 0, 0, 0, 240, 63] 0 false ≠
      getFloat64 [0, 0, 0, 0, 0, 0, 240, 63] 0 true := by
  have hle : getFloat64 [0, 0, 0, 0, 0, 0, 240, 63] 0 true = JSNum.num 1 := by
    have h1 : getFloat64 [0, 0, 0, 0, 0, 0, 240, 63] 0 true =
        float64OfBits 4607182418800017408 := rfl
    rw [h1]
    unfold float64OfBits
    norm_num
  have hbe : getFloat64 [0, 0, 0, 0, 0, 0, 240, 63] 0 false =
      JSNum.num (61503 * (1 / 2 ^ 1074)) := by
    have h1 : getFloat64 [0, 0, 0, 0, 0, 0, 240, 63] 0 false = float64OfBits 61503 := rfl
    rw [h1]
    unfold float64OfBits
    norm_num
  refine ⟨by rfl, hle, hbe, ?_⟩
  rw [hle, hbe]
  simp only [ne_eq, JSNum.num.injEq]
  norm_num

/-! ## C5: compressed string cells -/

/-- Transcription of the claimed behaviour of a compressed string cell
of a declared segment count: one instruction code is read per segment;
253 appends the next raw 8 bytes decoded as text, 254 appends an empty
segment, 255 makes the whole cell null and returns immediately without
consuming codes for the remaining segments, 252 and every other code are
fatal; with no 255 the value is the concatenation of the segments in
order.  Used only to be compared with the source-derived
`DataReader.compressedString`. -/
def compressedStringSpec (buf : List Nat) :
    Nat → Int → DState → Except Err (Option String) × DState
  | 0, _, s => (.error fuelMsg, s)
  | fuel + 1, length, s =>
    match DataReader.compressedCodes buf (fuel + 1) s with
    | (.error e, s') => (.error e, s')
    | (.ok code, s') =>
      if code = 252 then (.error "Unexpected end of records.", s')
      else if code = 253 then
        match Feeder.next ⟨buf, s'.cursor⟩ 8 with
        | (.error e, f) => (.error e, { s' with cursor := f.cursor })
        | (.ok chunk, f) =>
          if length - 1 = 0 then (.ok (some (utf8Decode chunk)), { s' with cursor := f.cursor })
          else
            match compressedStringSpec buf fuel (length - 1) { s' with cursor := f.cursor } with
            | (.ok (some r), s3) => (.ok (some (utf8Decode chunk ++ r)), s3)
            | other => other
      else if code = 254 then
        if length - 1 = 0 then (.ok (some ""), s')
        else
          match compressedStringSpec buf fuel (length - 1) s' with
          | (.ok (some r), s3) => (.ok (some ("" ++ r)), s3)
          | other => other
      else if code = 255 then (.ok none, s')
      else (.error "Default code not supported for strings.", s')

/-- Prefix a decoded piece onto a loop result; absent cells and errors
pass through. -/
def prependPiece (p : String) : Except Err (Option String) × DState → Except Err (Option String) × DState
  | (.ok (some r), s) => (.ok (some (p ++ r)), s)
  | other => other

theorem String_join_append_singleton (l : List String) (x : String) :
    String.join (l ++ [x]) = String.join l ++ x := by
  simp [String.join, List.foldl_append]

/-- The accumulator form of the source loop agrees with the
specification form up to the already-joined prefix. -/
theorem compressedString_loop_spec (buf : List Nat) :
    ∀ (fuel : Nat) (len : Int) (pieces : List String) (s : DState),
      DataReader.compressedString buf fuel len pieces s =
        prependPiece (String.join pieces) (compressedStringSpec buf fuel len s) := by
  intro fuel
  induction fuel with
  | zero => intro len pieces s; rfl
  | succ fuel ih =>
    intro len pieces s
    unfold DataReader.compressedString compressedStringSpec
    rcases hr : DataReader.compressedCodes buf (fuel + 1) s with ⟨e | code, s'⟩
    · simp only [hr]
      rfl
    · simp only [hr]
      by_cases h252 : code = 252
    
      · rw [if_pos h252, if_pos h252]
        rfl
      · rw [if_neg h252, if_neg h252]
        by_cases h253 : code = 253
        · rw [if_pos h253, if_pos h253]
          rcases hn : Feeder.next ⟨buf, s'.cursor⟩ 8 with ⟨e | chunk, f⟩
          · simp only [hn]
            rfl
          · simp only [hn]
            by_cases hl : len - 1 = 0
            · rw [if_pos hl, if_pos hl]
              simp [prependPiece, String_join_append_singleton]
            · rw [if_neg hl, if_neg hl]
              rw [ih (len - 1) (pieces ++ [utf8Decode chunk])
                { s' with cursor := f.cursor }]
              rcases hs : compressedStringSpec buf fuel (len - 1)
                  { s' with cursor := f.cursor } with ⟨e3 | r3, s3⟩
              · simp [prependPiece]
              · rcases r3 with _ | r
                · simp [prependPiece]
                · simp [prependPiece, String_join_append_singleton, String.append_assoc]
        · rw [if_neg h253, if_neg h253]
          by_cases h254 : code = 254
          · rw [if_pos h254, if_pos h254]
            by_cases hl : len - 1 = 0
            · rw [if_pos hl, if_pos hl]
              simp [prependPiece, String_join_append_singleton]
            · rw [if_neg hl, if_neg hl]
              rw [ih (len - 1) (pieces ++ [""]) s']
              rcases hs : compressedStringSpec buf fuel (len - 1) s' with ⟨e3 | r3, s3⟩
              · simp [prependPiece]
              · rcases r3 with _ | r
                · simp [prependPiece]
                · simp [prependPiece, String_join_append_singleton, String.append_assoc]
          · rw [if_neg h254, if_neg h254]
            by_cases h255 : code = 255
            · rw [if_pos h255]
              rfl
            · rw [if_neg h255]
              rfl

/-- C5: the source decoder for compressed string cells coincides with
the claimed per-segment behaviour (`compressedStringSpec`) for every
buffer, fuel, declared segment count and decoder state. -/
theorem C5_compressed_string_matches_spec (buf : List Nat) (fuel : Nat) (n : Int) (s : DState) :
    DataReader.compressedString buf fuel n [] s = compressedStringSpec buf fuel n s := by
  rw [compressedString_loop_spec buf fuel n [] s]
  rcases hs : compressedStringSpec buf fuel n s with ⟨e | r, s'⟩
  · rfl
  · rcases r with _ | r
    · rfl
    · simp only [prependPiece]
      show (Except.ok (some ("" ++ r)), s') = (Except.ok (some r), s')
      simp


/-! ## C7: signature check of the metadata read -/

/-- `Char.ofNat` round-trips on valid scalar values. -/
theorem char_toNat_ofNat (n : Nat) (h : n.isValidChar) : (Char.ofNat n).toNat = n := by
  simp [Char.ofNat, h, Char.ofNatAux, Char.toNat]
  rfl

/-- The replacement character is not ASCII. -/
theorem repl_toNat : repl.toNat = 65533 := by decide

/-- An ASCII character at the head of a decode can only come from the
matching single byte: every multi-byte or replacement production yields a
character with code point at least 128. -/
theorem utf8CharsF_ascii_head (fuel b : Nat) (rest : List Nat) (ch : Char) (cs : List Char)
    (hch : ch.toNat < 128)
    (h : utf8CharsF (fuel + 1) (b :: rest) = ch :: cs) :
    b = ch.toNat ∧ cs = utf8CharsF fuel rest := by
  by_cases hb : b < 128
  · unfold utf8CharsF at h
    rw [if_pos hb] at h
    injection h with h1 h2
    subst h1
    refine ⟨?_, h2.symm⟩
    rw [char_toNat_ofNat b (Or.inl (by omega))]
  · exfalso
    unfold utf8CharsF at h
    rw [if_neg hb] at h
    by_cases h2b : b < 194
    · rw [if_pos h2b] at h
      injection h with h1 _
      subst h1
      rw [repl_toNat] at hch
      omega
    · rw [if_neg h2b] at h
      by_cases h3b : b < 224
      · rw [if_pos h3b] at h
        rcases rest with _ | ⟨c, rest2⟩
        · replace h : ([repl] : List Char) = ch :: cs := h
          injection h with h1 _
          subst h1
          rw [repl_toNat] at hch
          omega
        · replace h :
              (if 128 ≤ c ∧ c < 192 then
                Char.ofNat ((b - 192) * 64 + (c - 128)) :: utf8CharsF fuel rest2
              else repl :: utf8CharsF fuel (c :: rest2)) = ch :: cs := h
          by_cases hcc : 128 ≤ c ∧ c < 192
          · rw [if_pos hcc] at h
            injection h with h1 _
            subst h1
            rw [char_toNat_ofNat _ (Or.inl (by omega))] at hch
            omega
          · rw [if_neg hcc] at h
            injection h with h1 _
            subst h1
            rw [repl_toNat] at hch
            omega
      · rw [if_neg h3b] at h
        by_cases h4b : b < 240
        · rw [if_pos h4b] at h
          rcases rest with _ | ⟨c, _ | ⟨c2, rest3⟩⟩
          · replace h : ([repl] : List Char) = ch :: cs := h
            injection h with h1 _
            subst h1
            rw [repl_toNat] at hch
            omega
          · replace h : ([repl] : List Char) = ch :: cs := h
            injection h with h1 _
            subst h1
            rw [repl_toNat] at hch
            omega
          · replace h :
                (if (128 ≤ c ∧ c < 192 ∧ (b ≠ 224 ∨ 160 ≤ c) ∧ (b ≠ 237 ∨ c < 160)) ∧
                    (128 ≤ c2 ∧ c2 < 192) then
                  Char.ofNat ((b - 224) * 4096 + (c - 128) * 64 + (c2 - 128)) ::
                    utf8CharsF fuel rest3
                else repl :: utf8CharsF fuel (c :: c2 :: rest3)) = ch :: cs := h
            by_cases hcc : (128 ≤ c ∧ c < 192 ∧ (b ≠ 224 ∨ 160 ≤ c) ∧ (b ≠ 237 ∨ c < 160)) ∧
                (128 ≤ c2 ∧ c2 < 192)
            · rw [if_pos hcc] at h
              injection h with h1 _
              subst h1
              rw [char_toNat_ofNat _ (by unfold Nat.isValidChar; omega)] at hch
              omega
            · rw [if_neg hcc] at h
              injection h with h1 _
              subst h1
              rw [repl_toNat] at hch
              omega
        · rw [if_neg h4b] at h
          by_cases h5b : b < 245
          · rw [if_pos h5b] at h
            rcases rest with _ | ⟨c, _ | ⟨c2, _ | ⟨c3, rest4⟩⟩⟩
            · replace h : ([repl] : List Char) = ch :: cs := h
              injection h with h1 _
              subst h1
              rw [repl_toNat] at hch
              omega
            · replace h : ([repl] : List Char) = ch :: cs := h
              injection h with h1 _
              subst h1
              rw [repl_toNat] at hch
              omega
            · replace h : ([repl] : List Char) = ch :: cs := h
              injection h with h1 _
              subst h1
              rw [repl_toNat] at hch
              omega
            · replace h :
                  (if (128 ≤ c ∧ c < 192 ∧ (b ≠ 240 ∨ 144 ≤ c) ∧ (b ≠ 244 ∨ c < 144)) ∧
                      (128 ≤ c2 ∧ c2 < 192) ∧ (128 ≤ c3 ∧ c3 < 192) then
                    Char.ofNat
                        ((b - 240) * 262144 + (c - 128) * 4096 + (c2 - 128) * 64 + (c3 - 128)) ::
                      utf8CharsF fuel rest4
                  else repl :: utf8CharsF fuel (c :: c2 :: c3 :: rest4)) = ch :: cs := h
              by_cases hcc : (128 ≤ c ∧ c < 192 ∧ (b ≠ 240 ∨ 144 ≤ c) ∧ (b ≠ 244 ∨ c < 144)) ∧
                  (128 ≤ c2 ∧ c2 < 192) ∧ (128 ≤ c3 ∧ c3 < 192)
              · rw [if_pos hcc] at h
                injection h with h1 _
                subst h1
                rw [char_toNat_ofNat _ (by unfold Nat.isValidChar; omega)] at hch
                omega
              · rw [if_neg hcc] at h
                injection h with h1 _
                subst h1
                rw [repl_toNat] at hch
                omega
          · rw [if_neg h5b] at h
            injection h with h1 _
            subst h1
            rw [repl_toNat] at hch
            omega

/-- Four bytes decode to the signature text "$FL2" only if they are
exactly the signature bytes. -/
theorem utf8Chars_sig_inj (a b c d : Nat)
    (h : utf8Chars [a, b, c, d] = ['$', 'F', 'L', '2']) :
    a = 36 ∧ b = 70 ∧ c = 76 ∧ d = 50 := by
  replace h : utf8CharsF 4 [a, b, c, d] = ['$', 'F', 'L', '2'] := h
  obtain ⟨h1, h2⟩ := utf8CharsF_ascii_head 3 a [b, c, d] '$' ['F', 'L', '2'] (by decide) h
  obtain ⟨h3, h4⟩ := utf8CharsF_ascii_head 2 b [c, d] 'F' ['L', '2'] (by decide) h2.symm
  obtain ⟨h5, h6⟩ := utf8CharsF_ascii_head 1 c [d] 'L' ['2'] (by decide) h4.symm
  obtain ⟨h7, _⟩ := utf8CharsF_ascii_head 0 d [] '2' [] (by decide) h6.symm
  exact ⟨h1.trans (by decide), h3.trans (by decide), h5.trans (by decide), h7.trans (by decide)⟩

/-- Successful `next` as a drop/take slice. -/
theorem Feeder_next_ok (buf : List Nat) (c size : Int) (hc : 0 ≤ c) (hs : 0 ≤ size)
    (h : c + size ≤ (buf.length : Int)) :
    Feeder.next ⟨buf, c⟩ size =
      (.ok ((buf.drop c.toNat).take size.toNat), ⟨buf, c + size⟩) := by
  simp only [Feeder.next]
  rw [if_neg (not_lt.mpr h)]
  rw [show c + size - size = c from by ring]
  rw [jsSlice_eq_drop_take buf c (c + size) hc (by omega) h]
  rw [show c + size - c = size from by ring]

/-- `nextM` on an in-bounds read. -/
theorem nextM_ok (buf : List Nat) (size c : Int) (hc : 0 ≤ c) (hs : 0 ≤ size)
    (h : c + size ≤ (buf.length : Int)) :
    nextM buf size c = (.ok ((buf.drop c.toNat).take size.toNat), c + size) := by
  unfold nextM
  rw [Feeder_next_ok buf c size hc hs h]

/-- With an in-bounds recorded position, the `finally` wrapper returns
the body result with the cursor restored. -/
theorem finallyJump_eq (buf : List Nat) (pos : Int) (body : Parse α) (c : Int)
    (h0 : 0 ≤ pos) (h1 : pos ≤ (buf.length : Int)) :
    finallyJump buf pos body c = ((body c).1, pos) := by
  simp only [finallyJump]
  rw [jumpM_inbounds buf pos (body c).2 h0 h1]

/-- Evaluate a bind whose first step succeeded. -/
theorem Parse_bind_eval {α β : Type} (m : Parse α) (k : α → Parse β) (c : Int) (a : α)
    (c1 : Int) (h : m c = (.ok a, c1)) : (m >>= k) c = k a c1 := by
  show Parse.bind m k c = k a c1
  unfold Parse.bind
  rw [h]

/-- When the buffer holds a full 176-byte header whose first four bytes
are not the signature, the promise body of `meta` rejects with the
signature-mismatch error naming expected and actual. -/
theorem metaBody_wrong_sig (buf : List Nat) (hlen : 176 ≤ buf.length)
    (hsig : buf.take 4 ≠ [36, 70, 76, 50]) :
    SavParser.metaBody buf 0 =
      (.error ("File is not a sav. Magic key Expected: \"$FL2\" Actual: " ++
        utf8Decode (buf.take 4)), 176) := by
  have hnext : nextM buf 176 0 = (.ok (buf.take 176), 176) := by
    rw [nextM_ok buf 176 0 (by norm_num) (by norm_num) (by omega)]
    norm_num
    rfl
  have hslice : jsSlice (buf.take 176) 0 4 = buf.take 4 := by
    rw [jsSlice_eq_drop_take (buf.take 176) 0 4 (by norm_num) (by norm_num)
      (by rw [List.length_take]; push_cast; omega)]
    norm_num
    rw [show Int.toNat 4 = 4 from rfl, List.take_take]
    norm_num
  have hmag : utf8Decode (buf.take 4) ≠ "$FL2" := by
    intro he
    have hchars : utf8Chars (buf.take 4) = ['$', 'F', 'L', '2'] := by
      have h2 := congrArg String.data he
      simpa [utf8Decode] using h2
    have hlen4 : (buf.take 4).length = 4 := by rw [List.length_take]; omega
    rcases hbt : buf.take 4 with _ | ⟨a, _ | ⟨b, _ | ⟨c, _ | ⟨d, _ | t⟩⟩⟩⟩ <;>
      rw [hbt] at hchars hlen4 <;> simp only [List.length_cons, List.length_nil] at hlen4
    · omega
    · omega
    · omega
    · omega
    · obtain ⟨e1, e2, e3, e4⟩ := utf8Chars_sig_inj a b c d hchars
      subst e1; subst e2; subst e3; subst e4
      exact hsig hbt
    · omega
  unfold SavParser.metaBody
  rw [Parse_bind_eval (nextM buf 176) _ 0 (buf.take 176) 176 hnext]
  simp only [hslice]
  rw [if_pos hmag]
  rfl

/-- C7 counterexample: a buffer shorter than the 176-byte header whose
first 4 bytes differ from the signature makes `meta` fail with the
end-of-file error, which does not name the expected and actual
signature; so the claim as stated (for every buffer with 4 wrong leading
bytes) fails. -/
theorem C7_short_buffer_counterexample :
    SavParser.meta [0, 0, 0, 0] 0 = (.error "Unexpected End of File", 0) ∧
    ("Unexpected End of File" : String) ≠
      "File is not a sav. Magic key Expected: \"$FL2\" Actual: " ++ utf8Decode [0, 0, 0, 0] := by
  exact ⟨by rfl, by decide⟩

/-- C7 (amended): for every buffer of at least 176 bytes whose first 4
bytes differ from the fixed signature bytes, `meta` rejects with the
error naming the expected signature and the actual decoded magic, no
metadata is produced, and the cursor is restored to its entry
position. -/
theorem C7_meta_wrong_signature (buf : List Nat) (c0 : Int)
    (hlen : 176 ≤ buf.length)
    (hsig : buf.take 4 ≠ [36, 70, 76, 50])
    (h0 : 0 ≤ c0) (h1 : c0 ≤ (buf.length : Int)) :
    SavParser.meta buf c0 =
      (.error ("File is not a sav. Magic key Expected: \"$FL2\" Actual: " ++
        utf8Decode (buf.take 4)), c0) := by
  unfold SavParser.meta
  rw [jumpM_inbounds buf 0 c0 (le_refl 0) (Int.ofNat_nonneg _)]
  show finallyJump buf c0 (SavParser.metaBody buf) 0 = _
  rw [finallyJump_eq buf c0 (SavParser.metaBody buf) 0 h0 h1,
      metaBody_wrong_sig buf hlen hsig]

set_option maxRecDepth 1000000 in
/-- Witness for C7 (amended) at a 176-byte zero buffer. -/
theorem C7_witness :
    SavParser.meta (List.replicate 176 0) 0 =
      (.error ("File is not a sav. Magic key Expected: \"$FL2\" Actual: " ++
        utf8Decode ((List.replicate 176 0).take 4)), 0) :=
  C7_meta_wrong_signature (List.replicate 176 0) 0 (by decide) (by decide) (by decide) (by decide)

/-! ## C9: opaque extension subtypes are not errors -/

/-- C9: a tag-7 extension record with a subtype outside {3, 4, 11, 13,
14, 21} does not fail: the loop consumes the 12-byte sub-header and then
exactly count x size payload bytes, stores them as count fixed-size
slices tagged with the subtype, and continues with the next record. -/
theorem C9_unrecognized_subtype_continues (buf : List Nat) (fuel : Nat) (p : InternalAcc)
    (c c1 c2 c3 subcode length count : Int) (chunk1 chunk2 chunk3 : List Nat)
    (hfin : truthyFinished p.finished = false)
    (h1 : nextM buf 4 c = (.ok chunk1, c1))
    (h2 : getInt32LE chunk1 0 = 7)
    (h3 : nextM buf 12 c1 = (.ok chunk2, c2))
    (hsub : getInt32LE chunk2 0 = subcode)
    (hlen : getInt32LE chunk2 4 = length)
    (hcnt : getInt32LE chunk2 8 = count)
    (hrec : subcode ≠ 3 ∧ subcode ≠ 4 ∧ subcode ≠ 11 ∧ subcode ≠ 13 ∧ subcode ≠ 14 ∧
      subcode ≠ 21)
    (h4 : nextM buf (count * length) c2 = (.ok chunk3, c3))
    (hcount : 0 ≤ count) :
    SavParser.readInternalLoop buf (fuel + 1) p c =
      SavParser.readInternalLoop buf fuel
        { p with unrecognized := some ((p.unrecognized.getD []) ++
            [(subcode, (List.range count.toNat).map (fun idx =>
              jsSlice chunk3 ((idx : Int) * length) ((idx : Int) * length + length)))]) }
        c3 := by
  have hun : SavParser.readUnrecognized buf count length c2 =
      (.ok ((List.range count.toNat).map (fun idx =>
        jsSlice chunk3 ((idx : Int) * length) ((idx : Int) * length + length))), c3) := by
    unfold SavParser.readUnrecognized
    rw [Parse_bind_eval (nextM buf (count * length)) _ c2 chunk3 c3 h4]
    show Parse.bind (newArrayP count) _ c3 = _
    unfold newArrayP
    rw [if_neg (not_lt.mpr hcount)]
    rfl
  conv_lhs => unfold SavParser.readInternalLoop
  rw [hfin]
  show (nextM buf 4 >>= _) c = _
  rw [Parse_bind_eval (nextM buf 4) _ c chunk1 c1 h1]
  simp only [h2]
  norm_num
  show (nextM buf 12 >>= _) c1 = _
  rw [Parse_bind_eval (nextM buf 12) _ c1 chunk2 c2 h3]
  simp only [hsub, hlen, hcnt]
  rw [if_neg hrec.1, if_neg hrec.2.1, if_neg hrec.2.2.1, if_neg hrec.2.2.2.1,
      if_neg hrec.2.2.2.2.1, if_neg hrec.2.2.2.2.2]
  show (SavParser.readUnrecognized buf count length >>= _) c2 = _
  rw [Parse_bind_eval (SavParser.readUnrecognized buf count length) _ c2 _ c3 hun]
  rfl

/-- A concrete record stream: tag 7, subtype 42, element size 3,
element count 2, six payload bytes. -/
def demo9buf : List Nat :=
  [7, 0, 0, 0] ++ [42, 0, 0, 0] ++ [3, 0, 0, 0] ++ [2, 0, 0, 0] ++ [9, 9, 9, 10, 10, 10]

set_option maxRecDepth 100000 in
/-- Witness for C9 on `demo9buf`. -/
theorem C9_witness :
    SavParser.readInternalLoop demo9buf 2 {} 0 =
      SavParser.readInternalLoop demo9buf 1
        { unrecognized := some [(42, [[9, 9, 9], [10, 10, 10]])] } 22 := by
  have h := C9_unrecognized_subtype_continues demo9buf 1 {} 0 4 16 22 42 3 2
    [7, 0, 0, 0] [42, 0, 0, 0, 3, 0, 0, 0, 2, 0, 0, 0] [9, 9, 9, 10, 10, 10]
    (by rfl) (by rfl) (by rfl) (by rfl) (by rfl) (by rfl) (by rfl) (by decide) (by rfl)
    (by decide)
  exact h.trans (by rfl)

/-! ## C8: readFields folds continuations into trailer counts

`readRawFieldsLoop` is an instrumented copy of `readFieldsLoop` that
records every tag-2 record as parsed by `readField`, continuation
records included, without the `fields`-accumulator folding.  The raw
record list is what C8 quantifies over; `specFields` transcribes the
claim (keep non-negative-code fields in order, give each the count of
the continuation records that immediately follow it), and
`readFieldsLoop_eq_raw` relates the real loop to the raw list. -/

def readRawFieldsLoop (buf : List Nat) : Nat → Parse (List Header)
  | 0 => perror fuelMsg
  | fuel + 1 => do
    let chunk ← nextM buf 4
    let code := getInt32LE chunk 0
    if code ≠ 2 then do
      let p ← getPos
      let _ ← jumpM buf (p - 4)
      Parse.pure []
    else do
      let field ← SavParser.readField buf
      let rest ← readRawFieldsLoop buf fuel
      Parse.pure (field :: rest)

def readRawFields (buf : List Nat) : Parse (List Header) :=
  readRawFieldsLoop buf (buf.length + 64)

def bumpLast : List Header → List Header
  | [] => []
  | [h] => [{ h with trailers := h.trailers + 1 }]
  | h :: h2 :: t => h :: bumpLast (h2 :: t)

def bumpLastBy : Nat → List Header → List Header
  | 0, l => l
  | n + 1, l => bumpLastBy n (bumpLast l)

def countNegPrefix : List Header → Nat
  | [] => 0
  | h :: t => if h.code > -1 then 0 else countNegPrefix t + 1

def specFields : List Header → List Header
  | [] => []
  | h :: t =>
    if h.code > -1 then { h with trailers := h.trailers + countNegPrefix t } :: specFields t
    else specFields t

def okSeq : Bool → List Header → Bool
  | _, [] => true
  | ne, h :: t => if h.code > -1 then okSeq true t else (ne && okSeq ne t)

def foldFields : List Header → List Header → List Header
  | fields, [] => fields
  | fields, h :: t =>
    if h.code > -1 then foldFields (fields ++ [h]) t else foldFields (bumpLast fields) t

theorem bumpLast_append (l : List Header) (h : Header) :
    bumpLast (l ++ [h]) = l ++ [{ h with trailers := h.trailers + 1 }] := by
  induction l with
  | nil => rfl
  | cons x t ih =>
    cases t with
    | nil => rfl
    | cons y t2 =>
      show x :: bumpLast ((y :: t2) ++ [h]) = x :: ((y :: t2) ++ [_])
      rw [ih]

theorem bumpLast_nonempty (l : List Header) (h : l ≠ []) : bumpLast l ≠ [] := by
  cases l with
  | nil => exact absurd rfl h
  | cons x t =>
    cases t with
    | nil => simp [bumpLast]
    | cons y t2 => simp [bumpLast]

theorem dropLast_getLast_bump (l : List Header) (last : Header)
    (h : l.getLast? = some last) :
    l.dropLast ++ [{ last with trailers := last.trailers + 1 }] = bumpLast l := by
  induction l with
  | nil => cases h
  | cons x t ih =>
    cases t with
    | nil =>
      simp only [List.getLast?_singleton, Option.some.injEq] at h
      subst h
      rfl
    | cons y t2 =>
      rw [List.getLast?_cons_cons] at h
      show (x :: (y :: t2).dropLast) ++ [_] = x :: bumpLast (y :: t2)
      rw [List.cons_append, ih h]

theorem bumpLastBy_append (n : Nat) (l : List Header) (h : Header) :
    bumpLastBy n (l ++ [h]) = l ++ [{ h with trailers := h.trailers + n }] := by
  induction n generalizing h with
  | zero =>
    show l ++ [h] = _
    norm_num
  | succ n ih =>
    show bumpLastBy n (bumpLast (l ++ [h])) = _
    rw [bumpLast_append, ih]
    push_cast
    ring_nf

theorem bumpLastBy_nil (n : Nat) : bumpLastBy n [] = [] := by
  induction n with
  | zero => rfl
  | succ n ih => exact ih

theorem foldFields_spec : ∀ (hs : List Header) (fields : List Header),
    okSeq (!fields.isEmpty) hs = true →
    foldFields fields hs = bumpLastBy (countNegPrefix hs) fields ++ specFields hs := by
  intro hs
  induction hs with
  | nil =>
    intro fields _
    show fields = bumpLastBy 0 fields ++ []
    simp [bumpLastBy]
  | cons h t ih =>
    intro fields hok
    have hfold : foldFields fields (h :: t) =
        if h.code > -1 then foldFields (fields ++ [h]) t
        else foldFields (bumpLast fields) t := rfl
    have hcnt : countNegPrefix (h :: t) =
        if h.code > -1 then 0 else countNegPrefix t + 1 := rfl
    have hspec : specFields (h :: t) =
        if h.code > -1 then
          { h with trailers := h.trailers + countNegPrefix t } :: specFields t
        else specFields t := rfl
    have hok2 : okSeq (!fields.isEmpty) (h :: t) =
        (if h.code > -1 then okSeq true t
         else ((!fields.isEmpty) && okSeq (!fields.isEmpty) t)) := rfl
    by_cases hc : h.code > -1
    · rw [hok2, if_pos hc] at hok
      rw [hfold, if_pos hc, hcnt, if_pos hc, hspec, if_pos hc]
      have hne : (!(fields ++ [h]).isEmpty) = true := by simp
      rw [ih (fields ++ [h]) (by rw [hne]; exact hok)]
      show bumpLastBy (countNegPrefix t) (fields ++ [h]) ++ specFields t = _
      rw [bumpLastBy_append]
      simp [bumpLastBy, List.append_assoc]
    · rw [hok2, if_neg hc] at hok
      obtain ⟨hne, hokt⟩ := Bool.and_eq_true_iff.mp hok
      have hnonempty : fields ≠ [] := by
        intro hempty
        rw [hempty] at hne
        simp at hne
      rw [hfold, if_neg hc, hcnt, if_neg hc, hspec, if_neg hc]
      have hbne : (!(bumpLast fields).isEmpty) = true := by
        have := bumpLast_nonempty fields hnonempty
        simpa [List.isEmpty_iff] using this
      rw [ih (bumpLast fields) (by rw [hbne]; rw [hne] at hokt; exact hokt)]
      show _ = bumpLastBy (countNegPrefix t + 1) fields ++ specFields t
      rfl

theorem specFields_nonneg : ∀ (hs : List Header), ∀ f ∈ specFields hs, f.code > -1 := by
  intro hs
  induction hs with
  | nil => intro f hf; cases hf
  | cons h t ih =>
    intro f hf
    have hspec : specFields (h :: t) =
        if h.code > -1 then
          { h with trailers := h.trailers + countNegPrefix t } :: specFields t
        else specFields t := rfl
    by_cases hc : h.code > -1
    · rw [hspec, if_pos hc] at hf
      rcases List.mem_cons.mp hf with hf | hf
      · subst hf
        exact hc
      · exact ih f hf
    · rw [hspec, if_neg hc] at hf
      exact ih f hf

theorem Parse_bind_ok' {α β : Type} (m : Parse α) (k : α → Parse β) (c : Int) (b : β)
    (c2 : Int) (h : (m >>= k) c = (.ok b, c2)) :
    ∃ a c1, m c = (.ok a, c1) ∧ k a c1 = (.ok b, c2) := by
  have h' : Parse.bind m k c = (.ok b, c2) := h
  exact (Parse_bind_ok m k c b c2).mp h'

theorem Parse_bind_err {α β : Type} (m : Parse α) (k : α → Parse β) (c : Int) (e : Err)
    (c1 : Int) (h : m c = (.error e, c1)) : (m >>= k) c = (.error e, c1) := by
  show Parse.bind m k c = (.error e, c1)
  unfold Parse.bind
  rw [h]

theorem readFieldsLoop_eq_raw (buf : List Nat) :
    ∀ (fuel : Nat) (fields : List Header) (c c' : Int) (hs : List Header),
      readRawFieldsLoop buf fuel c = (.ok hs, c') →
      okSeq (!fields.isEmpty) hs = true →
      SavParser.readFieldsLoop buf fuel fields c = (.ok (foldFields fields hs), c') := by
  intro fuel
  induction fuel with
  | zero =>
    intro fields c c' hs h _
    exact absurd (congrArg Prod.fst h) (by simp [readRawFieldsLoop, perror])
  | succ fuel ih =>
    intro fields c c' hs h hok
    simp only [readRawFieldsLoop] at h
    obtain ⟨chunk, c1, hn, hk⟩ := Parse_bind_ok' _ _ _ _ _ h
    conv_lhs => unfold SavParser.readFieldsLoop
    rw [Parse_bind_eval (nextM buf 4) _ c chunk c1 hn]
    by_cases hcode : getInt32LE chunk 0 ≠ 2
    · rw [if_pos hcode] at hk ⊢
      rw [Parse_bind_eval getPos _ c1 c1 c1 rfl] at hk ⊢
      rcases hj : jumpM buf (c1 - 4) c1 with ⟨rj | u, c2⟩
      · rw [Parse_bind_err (jumpM buf (c1 - 4)) _ c1 rj c2 hj] at hk
        exact absurd (congrArg Prod.fst hk) (by simp)
      · cases u
        rw [Parse_bind_eval (jumpM buf (c1 - 4)) _ c1 () c2 hj] at hk ⊢
        have h1 : (Except.ok ([] : List Header) : Except Err (List Header)) = .ok hs :=
          congrArg Prod.fst hk
        have h2 : c2 = c' := congrArg Prod.snd hk
        have h3 : ([] : List Header) = hs := by injection h1
        subst h3
        subst h2
        rfl
    · rw [if_neg hcode] at hk ⊢
      rcases hf : SavParser.readField buf c1 with ⟨rf | field, c2⟩
      · rw [Parse_bind_err (SavParser.readField buf) _ c1 rf c2 hf] at hk
        exact absurd (congrArg Prod.fst hk) (by simp)
      · rw [Parse_bind_eval (SavParser.readField buf) _ c1 field c2 hf] at hk ⊢
        rcases hrest : readRawFieldsLoop buf fuel c2 with ⟨rr | rest, c3⟩
        · rw [Parse_bind_err (readRawFieldsLoop buf fuel) _ c2 rr c3 hrest] at hk
          exact absurd (congrArg Prod.fst hk) (by simp)
        · rw [Parse_bind_eval (readRawFieldsLoop buf fuel) _ c2 rest c3 hrest] at hk
          have h1 : (Except.ok (field :: rest) : Except Err (List Header)) = .ok hs :=
            congrArg Prod.fst hk
          have h2 : c3 = c' := congrArg Prod.snd hk
          have h3 : field :: rest = hs := by injection h1
          subst h3
          subst h2
          have hokstep : okSeq (!fields.isEmpty) (field :: rest) =
              (if field.code > -1 then okSeq true rest
               else ((!fields.isEmpty) && okSeq (!fields.isEmpty) rest)) := rfl
          have hfold : foldFields fields (field :: rest) =
              if field.code > -1 then foldFields (fields ++ [field]) rest
              else foldFields (bumpLast fields) rest := rfl
          by_cases hneg : field.code > -1
          · rw [if_pos hneg]
            rw [hokstep, if_pos hneg] at hok
            rw [hfold, if_pos hneg]
            exact ih (fields ++ [field]) c2 c3 rest hrest (by
              rw [show (!(fields ++ [field]).isEmpty) = true from by simp]
              exact hok)
          · rw [if_neg hneg]
            rw [hokstep, if_neg hneg] at hok
            obtain ⟨hne, hokr⟩ := Bool.and_eq_true_iff.mp hok
            have hnonempty : fields ≠ [] := by
              intro hempty
              rw [hempty] at hne
              simp at hne
            rcases hlast : fields.getLast? with _ | last
            · exact absurd (List.getLast?_eq_none_iff.mp hlast) hnonempty
            · rw [hfold, if_neg hneg]
              rw [← dropLast_getLast_bump fields last hlast]
              exact ih (fields.dropLast ++ [{ last with trailers := last.trailers + 1 }])
                c2 c3 rest hrest (by
                  rw [dropLast_getLast_bump fields last hlast]
                  rw [show (!(bumpLast fields).isEmpty) = true from by
                    have := bumpLast_nonempty fields hnonempty
                    simpa [List.isEmpty_iff] using this]
                  rw [hne] at hokr
                  exact hokr)

/-- C8: whenever the raw tag-2 record stream satisfies the claim's
precondition (every negative-code record is preceded by some
non-negative-code record, `okSeq false`), `SavParser.readFields`
returns exactly the non-negative-code fields in declaration order with
each field's trailer count equal to the number of continuation records
immediately following it (`specFields`), at the same final cursor; no
continuation record is materialized (every returned field has
`code > -1`). -/
theorem C8_readFields_fold (buf : List Nat) (c c' : Int) (hs : List Header)
    (hraw : readRawFields buf c = (.ok hs, c'))
    (hok : okSeq false hs = true) :
    SavParser.readFields buf c = (.ok (specFields hs), c') ∧
    ∀ f ∈ specFields hs, f.code > -1 := by
  constructor
  · unfold SavParser.readFields
    have hq : (!([] : List Header).isEmpty) = false := rfl
    have h := readFieldsLoop_eq_raw buf (buf.length + 64) [] c c' hs hraw
      (by rw [hq]; exact hok)
    rw [h, foldFields_spec hs [] (by rw [hq]; exact hok), bumpLastBy_nil]
    simp
  · exact specFields_nonneg hs

def demo8buf : List Nat :=
  [2, 0, 0, 0] ++
  ([10, 0, 0, 0] ++ [0, 0, 0, 0] ++ [0, 0, 0, 0] ++ List.replicate 8 0 ++
   [83, 32, 32, 32, 32, 32, 32, 32]) ++
  [2, 0, 0, 0] ++
  ([255, 255, 255, 255] ++ [0, 0, 0, 0] ++ [0, 0, 0, 0] ++ List.replicate 8 0 ++
   List.replicate 8 32) ++
  [2, 0, 0, 0] ++
  ([0, 0, 0, 0] ++ [0, 0, 0, 0] ++ [0, 0, 0, 0] ++ List.replicate 8 0 ++
   [78, 32, 32, 32, 32, 32, 32, 32]) ++
  [231, 3, 0, 0]

def demo8hs : List Header :=
  [ { start := 4, code := 10, name := "S", label := "",
      missing := { codes := [], range := (none, none), strings := [] }, trailers := 0 }
  , { start := 36, code := -1, name := "", label := "",
      missing := { codes := [], range := (none, none), strings := [] }, trailers := 0 }
  , { start := 68, code := 0, name := "N", label := "",
      missing := { codes := [], range := (none, none), strings := [] }, trailers := 0 } ]

example : jsTrim (utf8Decode [83, 32, 32, 32, 32, 32, 32, 32]) = "S" := rfl

set_option maxRecDepth 1000000 in
theorem C8_witness :
    SavParser.readFields demo8buf 0 = (.ok (specFields demo8hs), 96) ∧
    ∀ f ∈ specFields demo8hs, f.code > -1 :=
  C8_readFields_fold demo8buf 0 96 demo8hs (by rfl) (by rfl)

/-! ## C1: the full read produces exactly `cases` rows -/

theorem DParse_bind_ok {α β : Type} (m : DParse α) (k : α → DParse β) (s : DState) (b : β)
    (s2 : DState) (h : (m >>= k) s = (.ok b, s2)) :
    ∃ a s1, m s = (.ok a, s1) ∧ k a s1 = (.ok b, s2) := by
  have h' : DParse.bind m k s = (.ok b, s2) := h
  revert h'
  unfold DParse.bind
  match hm : m s with
  | (.ok a, s1) => intro h'; exact ⟨a, s1, rfl, h'⟩
  | (.error e, s1) => intro h'; cases h'

theorem readRows_length (buf : List Nat) (compression : Int) (endianness : Option Int)
    (bias : JSNum) (fuel : Nat) (headers : List Header) :
    ∀ (n : Nat) (s s' : DState) (rs : List Row),
      DataReader.readRows buf compression endianness bias fuel headers n s = (.ok rs, s') →
      rs.length = n := by
  intro n
  induction n with
  | zero =>
    intro s s' rs h
    have h' : (Except.ok ([] : List Row), s) = (Except.ok rs, s') := h
    have h1 := congrArg Prod.fst h'
    injection h1 with h1
    rw [← h1]
    rfl
  | succ n ih =>
    intro s s' rs h
    simp only [DataReader.readRows] at h
    obtain ⟨r, s1, h1, h2⟩ := DParse_bind_ok _ _ _ _ _ h
    obtain ⟨rs0, s2, h3, h4⟩ := DParse_bind_ok _ _ _ _ _ h2
    have h5 : (Except.ok (r :: rs0), s2) = (Except.ok rs, s') := h4
    have h6 := congrArg Prod.fst h5
    injection h6 with h6
    rw [← h6, List.length_cons, ih s1 s2 rs0 h3]

/-- C1: on every successful full read (`SavParser.all`), the number of
rows produced equals the declared case count `meta.cases` (the rows are
decoded in case order by the `new Array(cases)` map in
`DataReader.read`). -/
theorem C1_rows_length_eq_cases (buf : List Nat) (c0 c' : Int) (p : Parsed)
    (h : SavParser.all buf c0 = (.ok p, c')) :
    (p.rows.length : Int) = p.meta.cases := by
  have h' : finallyJump buf c0 (SavParser.allBody buf) c0 = (.ok p, c') := h
  obtain ⟨c1, hbody⟩ := finallyJump_ok buf c0 (SavParser.allBody buf) c0 p c' h'
  unfold SavParser.allBody at hbody
  obtain ⟨sch, c2, hsch, hrest⟩ := Parse_bind_ok' _ _ _ _ _ hbody
  obtain ⟨rows, c3, hrows, hpure⟩ := Parse_bind_ok' _ _ _ _ _ hrest
  have hpure' : (Except.ok (⟨sch.meta, sch.headers, sch.internal, rows⟩ : Parsed), c3)
      = (Except.ok p, c1) := hpure
  have hp := congrArg Prod.fst hpure'
  injection hp with hp
  unfold DataReader.readAll at hrows
  rcases hr : DataReader.read buf sch c2 ⟨c2, [], 8⟩ with ⟨r, s⟩
  simp only [hr] at hrows
  have hr1 := congrArg Prod.fst hrows
  simp only at hr1
  rw [hr1] at hr
  unfold DataReader.read at hr
  obtain ⟨u, s1, hju, hif⟩ := DParse_bind_ok _ _ _ _ _ hr
  by_cases hneg : sch.meta.cases < 0
  · rw [if_pos hneg] at hif
    have hbad := congrArg Prod.fst hif
    simp only [liftF, perror] at hbad
    cases hbad
  · rw [if_neg hneg] at hif
    obtain ⟨rs, s2, hrs, hrest2⟩ := DParse_bind_ok _ _ _ _ _ hif
    obtain ⟨u2, s3, hj2, hp2⟩ := DParse_bind_ok _ _ _ _ _ hrest2
    have hp2' : (Except.ok rs, s3) = (Except.ok rows, s) := hp2
    have hp3 := congrArg Prod.fst hp2'
    injection hp3 with hp3
    have hlen : rs.length = sch.meta.cases.toNat :=
      readRows_length buf sch.meta.compression sch.internal.integer.endianness
        sch.meta.bias (DataReader.runFuel buf) sch.headers sch.meta.cases.toNat s1 s2 rs hrs
    rw [← hp]
    show ((rows.length : Nat) : Int) = sch.meta.cases
    rw [← hp3, hlen]
    exact Int.toNat_of_nonneg (not_lt.mp hneg)

/-- A 240-byte demo buffer: a valid 176-byte header declaring 3 cases,
no compression and 1 variable, one numeric field `V1`, the
end-of-dictionary record, and 24 data bytes (3 rows of one 8-byte
number each). -/
def demoBuf : List Nat :=
  [36, 70, 76, 50] ++ List.replicate 60 32 ++
  [0, 0, 0, 0] ++ [1, 0, 0, 0] ++ [0, 0, 0, 0] ++ [0, 0, 0, 0] ++ [3, 0, 0, 0] ++
  List.replicate 8 0 ++ List.replicate 9 32 ++ List.replicate 8 32 ++
  List.replicate 64 32 ++ [0, 0, 0] ++
  [2, 0, 0, 0] ++
  [0, 0, 0, 0] ++ [0, 0, 0, 0] ++ [0, 0, 0, 0] ++ List.replicate 8 0 ++
  [86, 49, 32, 32, 32, 32, 32, 32] ++
  [231, 3, 0, 0] ++ [0, 0, 0, 0] ++
  List.replicate 24 0

def emptyInternal : Internal :=
  { float := { missing := none, high := none, low := none }
  , integer := { major := none, minor := none, revision := none, machine := none
               , float := none, compression := none, endianness := none, character := none }
  , display := [], documents := [], names := [], longs := [], levels := []
  , extra := [], unrecognized := [], finished := 0 }

def emptyMeta : Meta :=
  { product := "", layout := 0, «variables» := 0, compression := 0, weightIndex := 0
  , cases := 0, bias := .num 0, createdDate := "", createdTime := "", label := "" }

/-- The result of the full read of `demoBuf` (total on this input: the
fallback branch is unreachable). -/
def demoParsedC1 : Parsed :=
  match SavParser.all demoBuf 0 with
  | (.ok p, _) => p
  | _ => { meta := emptyMeta, headers := [], internal := emptyInternal, rows := [] }

set_option maxRecDepth 1000000 in
/-- Witness for C1: the demo buffer parses successfully, declares 3
cases, and the full read returns exactly 3 rows. -/
theorem C1_witness :
    SavParser.all demoBuf 0 = (.ok demoParsedC1, 0) ∧
    demoParsedC1.meta.cases = 3 ∧
    demoParsedC1.rows.length = 3 ∧
    (demoParsedC1.rows.length : Int) = demoParsedC1.meta.cases :=
  ⟨rfl, by decide, by decide, C1_rows_length_eq_cases demoBuf 0 0 demoParsedC1 rfl⟩
